import Mathlib

/-!
# aliyun-dcdn-firewall-sync: a shallow embedding and its verified properties

The development embeds the pattern matchers, the address-group filters, the
IPv4 stage, the address-book normalisation and one synchronisation pass of the
repository as Lean functions, and proves (or refutes) statements of its
specification about them.

Go strings are modelled by `String`, read through their character list
(`String.data`).  The embedded functions only compare strings, cut them at
the length of another string and test single ASCII bytes; on UTF-8 text the
byte view of Go and the character view used here give the same answers.
Go errors are modelled by their message text.
-/

namespace DcdnSync

/-! ## Go string primitives -/

/-- Go `len(s)`. -/
def len (s : String) : Nat := s.data.length

/-- Go `s[i]`, `none` when the index is out of range. -/
def byteAt (s : String) (i : Nat) : Option Char := s.data[i]?

/-- Go `s[lo:]`. -/
def sliceFrom (s : String) (lo : Nat) : String := ⟨s.data.drop lo⟩

/-- Go `s[:hi]`. -/
def sliceTo (s : String) (hi : Nat) : String := ⟨s.data.take hi⟩

/-! ## Package `net` of the Go standard library

The repository calls `net.ParseIP`, `net.ParseCIDR`, `IP.To4`, `IP.String` and
`IPNet.String`.  They belong to the Go standard library, not to the repository;
the definitions below follow the library (`net` and `net/netip`, as of Go 1.22)
function by function.  A nil address, network or mask is `none`. -/

namespace Net

/-- Go `net.IP`: a slice of bytes, of length 4 or 16 for an address. -/
abbrev IP := List Nat

/-- Parsed address of `net/netip`: four bytes, or sixteen bytes with a zone. -/
inductive Addr where
  | v4 (bytes : List Nat)
  | v6 (bytes : List Nat) (zone : String)
  deriving DecidableEq

/-- Whether a character is an ASCII decimal digit. -/
def isDigit (c : Char) : Bool := decide (48 ≤ c.toNat) && decide (c.toNat ≤ 57)

/-- The loop of `netip.parseIPv4Fields` over the characters still to read. -/
def parseIPv4FieldsLoop :
    List Char → Option Char → Nat → Nat → Nat → List Nat → Option (Nat × Nat × List Nat)
  | [], _, val, pos, _, fields => some (val, pos, fields)
  | c :: rest, prev, val, pos, digLen, fields =>
    if isDigit c then
      if digLen = 1 ∧ val = 0 then none
      else
        let val1 := val * 10 + (c.toNat - 48)
        if val1 > 255 then none
        else parseIPv4FieldsLoop rest (some c) val1 pos (digLen + 1) fields
    else if c = '.' then
      if prev = none ∨ rest = [] ∨ prev = some '.' then none
      else if pos = 3 then none
      else parseIPv4FieldsLoop rest (some c) 0 (pos + 1) 0 (fields.set pos val)
    else none

/-- Go `netip.parseIPv4Fields`: four decimal fields without leading zeros. -/
def parseIPv4Fields (s : List Char) : Option (List Nat) :=
  match parseIPv4FieldsLoop s none 0 0 0 [0, 0, 0, 0] with
  | none => none
  | some (val, pos, fields) => if pos < 3 then none else some (fields.set 3 val)

/-- Value of a hexadecimal digit, `none` for any other character. -/
def hexVal (c : Char) : Option Nat :=
  if 48 ≤ c.toNat ∧ c.toNat ≤ 57 then some (c.toNat - 48)
  else if 97 ≤ c.toNat ∧ c.toNat ≤ 102 then some (c.toNat - 97 + 10)
  else if 65 ≤ c.toNat ∧ c.toNat ≤ 70 then some (c.toNat - 65 + 10)
  else none

/-- The inner loop of `netip.parseIPv6` reading one hexadecimal group:
the number of digits read, their value and the rest of the text. -/
def parseHexGroup : List Char → Nat → Nat → Option (Nat × Nat × List Char)
  | [], off, acc => some (off, acc, [])
  | c :: rest, off, acc =>
    match hexVal c with
    | none => some (off, acc, c :: rest)
    | some d =>
      let acc1 := acc * 16 + d
      if off > 3 then none
      else if acc1 > 65535 then none
      else parseHexGroup rest (off + 1) acc1

/-- The outer loop of `netip.parseIPv6`; every round consumes one group, so eight
rounds fill the sixteen bytes.  The result is the unread text, the number of bytes
written, the bytes and the position of the ellipsis. -/
def parseIPv6Loop :
    Nat → List Char → Nat → List Nat → Option Nat → Option (List Char × Nat × List Nat × Option Nat)
  | 0, s, i, ip, ellipsis => some (s, i, ip, ellipsis)
  | fuel + 1, s, i, ip, ellipsis =>
    if ¬ i < 16 then some (s, i, ip, ellipsis)
    else
      match parseHexGroup s 0 0 with
      | none => none
      | some (off, acc, rest) =>
        if off = 0 then none
        else if rest.head? = some '.' then
          if ellipsis = none ∧ i ≠ 12 then none
          else if i + 4 > 16 then none
          else
            match parseIPv4Fields s with
            | none => none
            | some f =>
              some ([], i + 4,
                (((ip.set i (f.getD 0 0)).set (i + 1) (f.getD 1 0)).set (i + 2) (f.getD 2 0)).set
                  (i + 3) (f.getD 3 0), ellipsis)
        else
          let ip1 := (ip.set i ((acc / 256) % 256)).set (i + 1) (acc % 256)
          let i1 := i + 2
          match rest with
          | [] => some ([], i1, ip1, ellipsis)
          | c :: rest1 =>
            if c ≠ ':' then none
            else
              match rest1 with
              | [] => none
              | c1 :: rest2 =>
                if c1 = ':' then
                  if ellipsis ≠ none then none
                  else
                    match rest2 with
                    | [] => some ([], i1, ip1, some i1)
                    | _ => parseIPv6Loop fuel rest2 i1 ip1 (some i1)
                else parseIPv6Loop fuel (c1 :: rest2) i1 ip1 ellipsis

/-- Go `netip.parseIPv6` on the text before the zone. -/
def parseIPv6Body (s0 : List Char) : Option (List Nat) :=
  let zero16 := List.replicate 16 0
  let start : List Char × Option Nat :=
    match s0 with
    | ':' :: ':' :: rest => (rest, some 0)
    | _ => (s0, none)
  if start.2 = some 0 ∧ start.1 = [] then some zero16
  else
    match parseIPv6Loop 8 start.1 0 zero16 start.2 with
    | none => none
    | some (rest, i, ip, ellipsis) =>
      if rest ≠ [] then none
      else if i < 16 then
        match ellipsis with
        | none => none
        | some e => some (ip.take e ++ List.replicate (16 - i) 0 ++ (ip.take i).drop e)
      else if ellipsis ≠ none then none
      else some ip

/-- Go `netip.parseIPv6`: the zone is split off at the first `%`. -/
def parseIPv6 (s : List Char) : Option Addr :=
  if '%' ∈ s then
    let body := s.takeWhile (fun c => c ≠ '%')
    let zone := (s.dropWhile (fun c => c ≠ '%')).drop 1
    if zone = [] then none
    else (parseIPv6Body body).map (fun b => Addr.v6 b ⟨zone⟩)
  else (parseIPv6Body s).map (fun b => Addr.v6 b "")

/-- The scan of `netip.ParseAddr` for the first `.`, `:` or `%`. -/
def parseAddrScan (whole : List Char) : List Char → Option Addr
  | [] => none
  | c :: rest =>
    if c = '.' then (parseIPv4Fields whole).map Addr.v4
    else if c = ':' then parseIPv6 whole
    else if c = '%' then none
    else parseAddrScan whole rest

/-- Go `netip.ParseAddr`. -/
def ParseAddr (s : String) : Option Addr := parseAddrScan s.data s.data

/-- Go `Addr.Zone`. -/
def Addr.Zone : Addr → String
  | .v4 _ => ""
  | .v6 _ z => z

/-- Go `Addr.As16`: an IPv4 address is mapped under `::ffff:0:0/96`. -/
def Addr.As16 : Addr → List Nat
  | .v4 b => [0, 0, 0, 0, 0, 0, 0, 0, 0, 0, 255, 255] ++ b
  | .v6 b _ => b

/-- Go `Addr.BitLen`. -/
def Addr.BitLen : Addr → Nat
  | .v4 _ => 32
  | .v6 _ _ => 128

/-- Go `net.ParseIP`; `none` is the nil address. -/
def ParseIP (s : String) : Option IP :=
  match ParseAddr s with
  | none => none
  | some addr => if addr.Zone ≠ "" then none else some addr.As16

/-- Go `IP.To4`; `none` is the nil address. -/
def To4 (ip : IP) : Option IP :=
  if ip.length = 4 then some ip
  else if ip.length = 16 ∧ (ip.take 10).all (fun b => b = 0) ∧ ip.getD 10 0 = 255
      ∧ ip.getD 11 0 = 255 then some (ip.drop 12)
  else none

/-- The loop of Go `net.CIDRMask`. -/
def cidrMaskLoop : Nat → Nat → List Nat
  | 0, _ => []
  | l + 1, n => if n ≥ 8 then 255 :: cidrMaskLoop l (n - 8)
                else (255 - 255 / 2 ^ n) :: cidrMaskLoop l 0

/-- Go `net.CIDRMask`; `none` is the nil mask. -/
def CIDRMask (ones bits : Nat) : Option (List Nat) :=
  if bits ≠ 32 ∧ bits ≠ 128 then none
  else if ones > bits then none
  else some (cidrMaskLoop (bits / 8) ones)

/-- Go `IP.Mask`; `none` is the nil address. -/
def Mask (ip : IP) (mask : List Nat) : Option IP :=
  let mask1 := if mask.length = 16 ∧ ip.length = 4 ∧ (mask.take 12).all (fun b => b = 255)
    then mask.drop 12 else mask
  let ip1 := if mask1.length = 4 ∧ ip.length = 16
      ∧ ip.take 12 = [0, 0, 0, 0, 0, 0, 0, 0, 0, 0, 255, 255]
    then ip.drop 12 else ip
  if ip1.length ≠ mask1.length then none
  else some (List.zipWith (fun a b => a &&& b) ip1 mask1)

/-- Go `net.IPNet`. -/
structure IPNet where
  IP : Option IP
  Mask : Option (List Nat)
  deriving DecidableEq

/-- Go `net.dtoi`: the decimal number at the start of the text, the number of
characters read, and whether a number below the bound was read. -/
def dtoiLoop : List Char → Nat → Nat → Nat × Nat × Bool
  | [], n, i => if i = 0 then (0, 0, false) else (n, i, true)
  | c :: rest, n, i =>
    if isDigit c then
      let n1 := n * 10 + (c.toNat - 48)
      if n1 ≥ 16777215 then (16777215, i, false)
      else dtoiLoop rest n1 (i + 1)
    else if i = 0 then (0, 0, false) else (n, i, true)

/-- Go `net.dtoi`. -/
def dtoi (s : List Char) : Nat × Nat × Bool := dtoiLoop s 0 0

/-- Go `net.ParseCIDR`: the address and the network, `none` on a parse error. -/
def ParseCIDR (s : String) : Option (IP × IPNet) :=
  if '/' ∈ s.data then
    let addr := s.data.takeWhile (fun c => c ≠ '/')
    let mask := (s.data.dropWhile (fun c => c ≠ '/')).drop 1
    match ParseAddr ⟨addr⟩ with
    | none => none
    | some ipAddr =>
      if ipAddr.Zone ≠ "" then none
      else
        match dtoi mask with
        | (n, i, ok) =>
          if !ok ∨ i ≠ mask.length ∨ n > ipAddr.BitLen then none
          else
            let m := CIDRMask n ipAddr.BitLen
            let addr16 := ipAddr.As16
            some (addr16, { IP := Mask addr16 (m.getD []), Mask := m })
  else none

/-- Go `netip.appendDecimal` for one byte. -/
def appendDecimal (x : Nat) : List Char :=
  (if x ≥ 100 then [Char.ofNat (48 + x / 100)] else [])
    ++ (if x ≥ 10 then [Char.ofNat (48 + x / 10 % 10)] else [])
    ++ [Char.ofNat (48 + x % 10)]

/-- Go `Addr.string4`: dotted decimal. -/
def string4 (b : List Nat) : List Char :=
  appendDecimal (b.getD 0 0) ++ '.' :: appendDecimal (b.getD 1 0)
    ++ '.' :: appendDecimal (b.getD 2 0) ++ '.' :: appendDecimal (b.getD 3 0)

/-- One digit of `hexDigit`. -/
def hexDigit (d : Nat) : Char := if d < 10 then Char.ofNat (48 + d) else Char.ofNat (87 + d)

/-- Go `netip.appendHex` for one sixteen-bit group. -/
def appendHex (x : Nat) : List Char :=
  (if x ≥ 4096 then [hexDigit (x / 4096)] else [])
    ++ (if x ≥ 256 then [hexDigit (x / 256 % 16)] else [])
    ++ (if x ≥ 16 then [hexDigit (x / 16 % 16)] else [])
    ++ [hexDigit (x % 16)]

/-- Go `Addr.v6u16`: the `i`-th sixteen-bit group. -/
def v6u16 (b : List Nat) (i : Nat) : Nat := b.getD (2 * i) 0 * 256 + b.getD (2 * i + 1) 0

/-- The inner loop of the zero-run search: the end of the run of zero groups from `j`. -/
def zeroRunEnd (b : List Nat) : Nat → Nat → Nat
  | 0, j => j
  | fuel + 1, j => if j < 8 ∧ v6u16 b j = 0 then zeroRunEnd b fuel (j + 1) else j

/-- The zero-run search of `Addr.appendTo6`: the longest run of two or more zero groups. -/
def zeroRunLoop (b : List Nat) : Nat → Nat → Nat → Nat → Nat × Nat
  | 0, _, zs, ze => (zs, ze)
  | fuel + 1, i, zs, ze =>
    let j := zeroRunEnd b 8 i
    if j - i ≥ 2 ∧ j - i > ze - zs then zeroRunLoop b fuel (i + 1) i j
    else zeroRunLoop b fuel (i + 1) zs ze

/-- The printing loop of `Addr.appendTo6`. -/
def appendTo6Loop (b : List Nat) (zs ze : Nat) : Nat → Nat → List Char → List Char
  | 0, _, ret => ret
  | fuel + 1, i, ret =>
    if ¬ i < 8 then ret
    else if i = zs then
      let ret1 := ret ++ [':', ':']
      if ze ≥ 8 then ret1
      else appendTo6Loop b zs ze fuel (ze + 1) (ret1 ++ appendHex (v6u16 b ze))
    else if i > 0 then appendTo6Loop b zs ze fuel (i + 1) (ret ++ ':' :: appendHex (v6u16 b i))
    else appendTo6Loop b zs ze fuel (i + 1) (ret ++ appendHex (v6u16 b i))

/-- Go `Addr.string6` without a zone. -/
def string6 (b : List Nat) : List Char :=
  let z := zeroRunLoop b 8 0 255 255
  appendTo6Loop b z.1 z.2 8 0 []

/-- Go `IP.String` for an address of four or sixteen bytes. -/
def IPString (ip : IP) : String :=
  if ip.length = 0 then "<nil>"
  else
    match To4 ip with
    | some p4 => ⟨string4 p4⟩
    | none => ⟨string6 ip⟩

/-- Go `net.simpleMaskLength` counting the leading one bits of a byte. -/
def leadingOnes : Nat → Nat → Nat × Nat
  | 0, v => (0, v)
  | fuel + 1, v => if v &&& 128 ≠ 0 then
      let r := leadingOnes fuel ((v * 2) % 256)
      (r.1 + 1, r.2)
    else (0, v)

/-- Go `net.simpleMaskLength`; `none` stands for the result -1. -/
def simpleMaskLength : List Nat → Option Nat
  | [] => some 0
  | v :: rest =>
    if v = 255 then (simpleMaskLength rest).map (fun n => n + 8)
    else
      let r := leadingOnes 8 v
      if r.2 ≠ 0 then none
      else if rest.any (fun b => b ≠ 0) then none
      else some r.1

/-- Go `IPMask.String`: the bytes in hexadecimal. -/
def maskString (m : List Nat) : List Char :=
  m.flatMap (fun b => [hexDigit (b / 16), hexDigit (b % 16)])

/-- Go `net.networkNumberAndMask`. -/
def networkNumberAndMask (n : IPNet) : Option (IP × List Nat) :=
  let ip0 := n.IP.getD []
  let ipOpt : Option IP :=
    match To4 ip0 with
    | some p => some p
    | none => if ip0.length ≠ 16 then none else some ip0
  match ipOpt with
  | none => none
  | some ip =>
    let m := n.Mask.getD []
    if m.length = 4 then (if ip.length ≠ 4 then none else some (ip, m))
    else if m.length = 16 then (if ip.length = 4 then some (ip, m.drop 12) else some (ip, m))
    else none

/-- Go `IPNet.String`. -/
def IPNet.String (n : IPNet) : String :=
  match networkNumberAndMask n with
  | none => "<nil>"
  | some (nn, m) =>
    match simpleMaskLength m with
    | none => ⟨(IPString nn).data ++ '/' :: maskString m⟩
    | some l => ⟨(IPString nn).data ++ '/' :: (Nat.repr l).data⟩

end Net

open Net

/-! ## Data model (`pkg/models`, `internal/config`) -/

/-- The record `models.DCDNSourceIPInfo`; the time stamp is a number. -/
structure DCDNSourceIPInfo where
  IP : String
  Location : String
  ISP : String
  Status : String
  LastUpdated : Nat
  deriving DecidableEq

/-- The record `config.AddressGroup`. -/
structure AddressGroup where
  GroupName : String
  Description : String
  IPType : String
  IncludePatterns : List String
  ExcludePatterns : List String
  deriving DecidableEq

/-- The record `config.SyncConfig`. -/
structure SyncConfig where
  AddressGroups : List AddressGroup
  deriving DecidableEq

/-- The record `models.SyncTask`; times are numbers. -/
structure SyncTask where
  TaskId : String
  Status : String
  StartTime : Nat
  EndTime : Nat
  SourceIPs : List String
  AddedIPs : List String
  RemovedIPs : List String
  ErrorMsg : String
  deriving DecidableEq

/-! ## Pattern matchers -/

/-- The function `matchPattern` of `cmd/main.go`. -/
def matchPattern (text pattern : String) : Bool :=
  if pattern = "*" then true
  else if len pattern = 0 then decide (len text = 0)
  else if byteAt pattern 0 = some '*' then
    let suffix := sliceFrom pattern 1
    decide (len text ≥ len suffix) && decide (sliceFrom text (len text - len suffix) = suffix)
  else if byteAt pattern (len pattern - 1) = some '*' then
    let pre := sliceTo pattern (len pattern - 1)
    decide (len text ≥ len pre) && decide (sliceTo text (len pre) = pre)
  else decide (text = pattern)

/-- The method `Scheduler.matchIPPattern` of `internal/scheduler/scheduler.go`. -/
def matchIPPattern (ip pattern : String) : Bool :=
  if pattern = "*" ∨ pattern = ip then true
  else if len pattern > 0 ∧ byteAt pattern (len pattern - 1) = some '*' then
    let pre := sliceTo pattern (len pattern - 1)
    decide (len ip ≥ len pre) && decide (sliceTo ip (len pre) = pre)
  else false

/-! ## The IPv4 stage of the scheduler -/

/-- The method `Scheduler.isIPv4`. -/
def Scheduler.isIPv4 (ip : String) : Bool :=
  match ParseIP ip with
  | none => false
  | some parsedIP => (To4 parsedIP).isSome

/-- Go `strings.Contains(s, "/")`. -/
def containsSlash (s : String) : Bool := decide ('/' ∈ s.data)

/-- The loop of `Scheduler.filterIPv4Addresses`. -/
def filterIPv4Loop : List DCDNSourceIPInfo → List DCDNSourceIPInfo → List DCDNSourceIPInfo
  | [], ipv4IPs => ipv4IPs
  | ipInfo :: rest, ipv4IPs =>
    if containsSlash ipInfo.IP then
      match ParseCIDR ipInfo.IP with
      | none => filterIPv4Loop rest ipv4IPs
      | some (_, ipNet) =>
        if (To4 (ipNet.IP.getD [])).isSome then
          filterIPv4Loop rest (ipv4IPs ++
            [⟨ipInfo.IP, ipInfo.Location, ipInfo.ISP, ipInfo.Status, ipInfo.LastUpdated⟩])
        else filterIPv4Loop rest ipv4IPs
    else if Scheduler.isIPv4 ipInfo.IP then filterIPv4Loop rest (ipv4IPs ++ [ipInfo])
    else filterIPv4Loop rest ipv4IPs

/-- The method `Scheduler.filterIPv4Addresses`. -/
def Scheduler.filterIPv4Addresses (sourceIPs : List DCDNSourceIPInfo) : List DCDNSourceIPInfo :=
  filterIPv4Loop sourceIPs []

/-- The loop body of `Scheduler.filterIPv4Addresses`: whether an entry is kept. -/
def ipv4StageKeeps (raw : String) : Bool :=
  if containsSlash raw then
    match ParseCIDR raw with
    | none => false
    | some (_, ipNet) => (To4 (ipNet.IP.getD [])).isSome
  else Scheduler.isIPv4 raw

/-! ## Address-group filters -/

/-- The inner loops of both filters: the first pattern that matches sets the flag. -/
def anyMatch (m : String → String → Bool) (ip : String) : List String → Bool
  | [] => false
  | p :: ps => if m ip p then true else anyMatch m ip ps

/-- The loop body of `Scheduler.filterSourceIPs`: whether one record is kept. -/
def schedulerKeeps (group : AddressGroup) (ip : DCDNSourceIPInfo) : Bool :=
  let excluded := anyMatch matchIPPattern ip.IP group.ExcludePatterns
  if excluded then false
  else if group.IncludePatterns.length > 0 then
    let included := anyMatch matchIPPattern ip.IP group.IncludePatterns
    if !included then false else true
  else true

/-- The loop of `Scheduler.filterSourceIPs`, appending the kept records in order. -/
def schedulerFilterLoop (group : AddressGroup) :
    List DCDNSourceIPInfo → List DCDNSourceIPInfo → List DCDNSourceIPInfo
  | [], filtered => filtered
  | ip :: rest, filtered =>
    if schedulerKeeps group ip then schedulerFilterLoop group rest (filtered ++ [ip])
    else schedulerFilterLoop group rest filtered

/-- The method `Scheduler.filterSourceIPs`. -/
def Scheduler.filterSourceIPs (sourceIPs : List DCDNSourceIPInfo) (group : AddressGroup) :
    List DCDNSourceIPInfo :=
  if group.IncludePatterns.length = 0 ∧ group.ExcludePatterns.length = 0 then sourceIPs
  else schedulerFilterLoop group sourceIPs []

/-- The loop body of `filterSourceIPs` in `cmd/main.go`: whether one record is kept. -/
def mainKeeps (includePatterns excludePatterns : List String) (sourceIP : DCDNSourceIPInfo) :
    Bool :=
  let included0 := decide (includePatterns.length = 0)
  let included :=
    if includePatterns.length > 0 then
      (if anyMatch matchPattern sourceIP.IP includePatterns then true else included0)
    else included0
  let excluded := anyMatch matchPattern sourceIP.IP excludePatterns
  included && !excluded

/-- The loop of `filterSourceIPs` in `cmd/main.go`. -/
def mainFilterLoop (includePatterns excludePatterns : List String) :
    List DCDNSourceIPInfo → List DCDNSourceIPInfo → List DCDNSourceIPInfo
  | [], result => result
  | sourceIP :: rest, result =>
    if mainKeeps includePatterns excludePatterns sourceIP then
      mainFilterLoop includePatterns excludePatterns rest (result ++ [sourceIP])
    else mainFilterLoop includePatterns excludePatterns rest result

/-- The function `filterSourceIPs` of `cmd/main.go`. -/
def filterSourceIPs (sourceIPs : List DCDNSourceIPInfo)
    (includePatterns excludePatterns : List String) : List DCDNSourceIPInfo :=
  if includePatterns.length = 0 ∧ excludePatterns.length = 0 then sourceIPs
  else mainFilterLoop includePatterns excludePatterns sourceIPs []

/-! ## De-duplication -/

/-- The loop of `Scheduler.removeDuplicateIPs`; `seen` lists the keys of the Go map. -/
def removeDuplicateLoop : List String → List String → List String → List String
  | [], _, result => result
  | ip :: rest, seen, result =>
    if ip ∈ seen then removeDuplicateLoop rest seen result
    else removeDuplicateLoop rest (ip :: seen) (result ++ [ip])

/-- The method `Scheduler.removeDuplicateIPs`. -/
def Scheduler.removeDuplicateIPs (ips : List String) : List String :=
  removeDuplicateLoop ips [] []

/-! ## The cloud-firewall client (`internal/client/firewall_client.go`) -/

/-- Request of the SDK call `DescribeAddressBook`. -/
structure DescribeAddressBookRequest where
  PageSize : String
  CurrentPage : String
  Lang : String
  GroupType : String
  deriving DecidableEq

/-- One address book of a listing; a nil pointer is `none`. -/
structure DescribeAddressBookResponseBodyAcls where
  GroupUuid : Option String
  GroupName : Option String
  Description : Option String
  AddressList : List (Option String)
  deriving DecidableEq

/-- Body of the response of `DescribeAddressBook`. -/
structure DescribeAddressBookResponseBody where
  Acls : List (Option DescribeAddressBookResponseBodyAcls)
  deriving DecidableEq

/-- Request of the SDK call `AddAddressBook`. -/
structure AddAddressBookRequest where
  Description : String
  GroupName : String
  AddressList : String
  AutoAddTagEcs : String
  TagRelation : String
  GroupType : String
  Lang : String
  deriving DecidableEq

/-- Request of the SDK call `ModifyAddressBook`. -/
structure ModifyAddressBookRequest where
  GroupUuid : String
  GroupName : String
  Description : String
  AddressList : String
  deriving DecidableEq

/-- The remote cloud-firewall service behind the SDK client, over its state `ρ`.
A read returns a response body (`none` for a nil body) or an error text; a write
returns `none` on success or an error text. -/
structure CloudFW (ρ : Type) where
  DescribeAddressBook :
    DescribeAddressBookRequest → ρ → Except String (Option DescribeAddressBookResponseBody) × ρ
  AddAddressBook : AddAddressBookRequest → ρ → Option String × ρ
  ModifyAddressBook : ModifyAddressBookRequest → ρ → Option String × ρ

/-- The record `models.FirewallAddressEntry`, without its time stamps. -/
structure FirewallAddressEntry where
  IP : String
  Description : String
  Tags : List String
  deriving DecidableEq

/-- The record `models.FirewallAddressBook`, without its time stamp. -/
structure FirewallAddressBook where
  GroupName : String
  GroupId : String
  Description : String
  Entries : List FirewallAddressEntry
  deriving DecidableEq

/-- Go `tea.StringValue`: the empty string for a nil pointer. -/
def StringValue (p : Option String) : String := p.getD ""

/-- The search loop of `GetAddressBookByName`: the first non-nil book of that name. -/
def findAcl (groupName : String) :
    List (Option DescribeAddressBookResponseBodyAcls) → Option DescribeAddressBookResponseBodyAcls
  | [] => none
  | none :: rest => findAcl groupName rest
  | some acl :: rest =>
    if StringValue acl.GroupName = groupName then some acl else findAcl groupName rest

/-- The conversion loop of `GetAddressBookByName` over the address list of a book. -/
def aclEntries : List (Option String) → List FirewallAddressEntry
  | [] => []
  | none :: rest => aclEntries rest
  | some addr :: rest => { IP := addr, Description := "", Tags := [] } :: aclEntries rest

/-- The method `FirewallClient.GetAddressBookByName`. -/
def FirewallClient.GetAddressBookByName {ρ : Type} (fw : CloudFW ρ) (groupName : String)
    (r : ρ) : Except String (Option FirewallAddressBook) × ρ :=
  let request : DescribeAddressBookRequest :=
    { PageSize := "50", CurrentPage := "1", Lang := "zh", GroupType := "ip" }
  match fw.DescribeAddressBook request r with
  | (.error err, r1) => (.error ("调用DescribeAddressBook API失败: " ++ err), r1)
  | (.ok none, r1) => (.error "API响应体为空", r1)
  | (.ok (some body), r1) =>
    if body.Acls.length = 0 then (.ok none, r1)
    else
      match findAcl groupName body.Acls with
      | none => (.ok none, r1)
      | some targetAcl =>
        (.ok (some { GroupId := StringValue targetAcl.GroupUuid,
                     GroupName := StringValue targetAcl.GroupName,
                     Description := StringValue targetAcl.Description,
                     Entries := aclEntries targetAcl.AddressList }), r1)

/-- The method `FirewallClient.isValidIP`. -/
def FirewallClient.isValidIP (ip : String) : Bool :=
  if containsSlash ip then (ParseCIDR ip).isSome
  else (ParseIP ip).isSome

/-- The body of the normalisation loop of `FirewallClient.SyncAddressBook`: the
string pushed for one entry, `none` when the entry is skipped. -/
def syncNormalizeEntry (ip : String) : Option String :=
  if !FirewallClient.isValidIP ip then none
  else if containsSlash ip then
    match ParseCIDR ip with
    | none => none
    | some (parsedIP, ipNet) =>
      if (To4 parsedIP).isNone then none else some ipNet.String
  else
    match ParseIP ip with
    | none => none
    | some parsedIP =>
      if (To4 parsedIP).isNone then none else some (IPString parsedIP)

/-- The normalisation loop of `FirewallClient.SyncAddressBook` building `newIPs`. -/
def syncNormalizeLoop : List DCDNSourceIPInfo → List String → List String
  | [], newIPs => newIPs
  | ip :: rest, newIPs =>
    match syncNormalizeEntry ip.IP with
    | none => syncNormalizeLoop rest newIPs
    | some ipStr => syncNormalizeLoop rest (newIPs ++ [ipStr])

/-- The list `newIPs` that `FirewallClient.SyncAddressBook` pushes. -/
def syncNewIPs (sourceIPs : List DCDNSourceIPInfo) : List String :=
  syncNormalizeLoop sourceIPs []

/-- The lookup loop of `SyncAddressBook` for the configuration of a group. -/
def findGroup (groupName : String) : List AddressGroup → Option AddressGroup
  | [] => none
  | group :: rest => if group.GroupName = groupName then some group else findGroup groupName rest

/-- The method `FirewallClient.SyncAddressBook`: `none` is the nil error. -/
def FirewallClient.SyncAddressBook {ρ : Type} (sync : SyncConfig) (fw : CloudFW ρ)
    (groupName : String) (sourceIPs : List DCDNSourceIPInfo) (r : ρ) : Option String × ρ :=
  let newIPs := syncNewIPs sourceIPs
  match FirewallClient.GetAddressBookByName fw groupName r with
  | (.error err, r1) => (some ("获取地址薄信息失败: " ++ err), r1)
  | (.ok none, r1) =>
    match findGroup groupName sync.AddressGroups with
    | none => (some ("未找到地址薄 " ++ groupName ++ " 的配置信息"), r1)
    | some addressGroup =>
      let request : AddAddressBookRequest :=
        { Description := addressGroup.Description, GroupName := groupName,
          AddressList := String.intercalate "," newIPs, AutoAddTagEcs := "false",
          TagRelation := "and", GroupType := "ip", Lang := "zh" }
      match fw.AddAddressBook request r1 with
      | (some err, r2) => (some ("创建地址薄失败: " ++ err), r2)
      | (none, r2) => (none, r2)
  | (.ok (some targetBook), r1) =>
    match findGroup groupName sync.AddressGroups with
    | none => (some ("未找到地址薄 " ++ groupName ++ " 的配置信息"), r1)
    | some addressGroup =>
      let modifyRequest : ModifyAddressBookRequest :=
        { GroupUuid := targetBook.GroupId, GroupName := groupName,
          Description := addressGroup.Description,
          AddressList := String.intercalate "," newIPs }
      match fw.ModifyAddressBook modifyRequest r1 with
      | (some err, r2) => (some ("更新地址薄失败: " ++ err), r2)
      | (none, r2) => (none, r2)

/-- One call made to the remote service. -/
inductive ApiCall where
  | describe (request : DescribeAddressBookRequest)
  | add (request : AddAddressBookRequest)
  | modify (request : ModifyAddressBookRequest)
  deriving DecidableEq

/-- A remote service that also records, in order, every call it receives. -/
def recording {ρ : Type} (fw : CloudFW ρ) : CloudFW (ρ × List ApiCall) where
  DescribeAddressBook := fun request r =>
    ((fw.DescribeAddressBook request r.1).1,
      ((fw.DescribeAddressBook request r.1).2, r.2 ++ [ApiCall.describe request]))
  AddAddressBook := fun request r =>
    ((fw.AddAddressBook request r.1).1,
      ((fw.AddAddressBook request r.1).2, r.2 ++ [ApiCall.add request]))
  ModifyAddressBook := fun request r =>
    ((fw.ModifyAddressBook request r.1).1,
      ((fw.ModifyAddressBook request r.1).2, r.2 ++ [ApiCall.modify request]))

/-- A remote service without any address book that accepts every write. -/
def emptyRemote : CloudFW Unit where
  DescribeAddressBook := fun _ r => (.ok (some { Acls := [] }), r)
  AddAddressBook := fun _ r => (none, r)
  ModifyAddressBook := fun _ r => (none, r)

/-- A remote service whose listing holds one address book, of the given name and
identifier, and that accepts every write. -/
def singleBookRemote (groupName groupUuid : String) : CloudFW Unit where
  DescribeAddressBook := fun _ r =>
    (.ok (some { Acls := [some { GroupUuid := some groupUuid, GroupName := some groupName,
                                 Description := some "", AddressList := [] }] }), r)
  AddAddressBook := fun _ r => (none, r)
  ModifyAddressBook := fun _ r => (none, r)

/-! ## One synchronisation pass (`Scheduler.executeSyncTask`) -/

/-- The two collaborators of a pass over the state `σ` of the outside world:
the source-IP fetch and the address-book sync (`none` is the nil error). -/
structure Clients (σ : Type) where
  GetL2IPList : σ → Except String (List DCDNSourceIPInfo) × σ
  SyncAddressBook : String → List DCDNSourceIPInfo → σ → Option String × σ

/-- One call of a pass to a collaborator. -/
inductive Call where
  | fetch
  | sync (groupName : String) (ips : List DCDNSourceIPInfo)
  deriving DecidableEq

/-- Result of a pass: the returned error (`none` for nil), the final task record,
the collaborator calls in the order they were made, and the final outside state. -/
structure PassResult (σ : Type) where
  err : Option String
  task : SyncTask
  calls : List Call
  world : σ

/-- The deferred function of `executeSyncTask`, run when the pass returns. -/
def finishTask (task : SyncTask) (endTime : Nat) : SyncTask :=
  let task1 := { task with EndTime := endTime }
  if task1.Status = "running" then { task1 with Status := "completed" } else task1

/-- The loop of `executeSyncTask` over the configured address groups. -/
def syncGroupsLoop {σ : Type} (c : Clients σ) (ipv4IPs : List DCDNSourceIPInfo) :
    List AddressGroup → SyncTask → List Call → σ → SyncTask × List Call × σ
  | [], task, calls, w => (task, calls, w)
  | syncGroup :: rest, task, calls, w =>
    let targetIPs := ipv4IPs
    let filteredIPs := Scheduler.filterSourceIPs targetIPs syncGroup
    let calls1 := calls ++ [Call.sync syncGroup.GroupName filteredIPs]
    match c.SyncAddressBook syncGroup.GroupName filteredIPs w with
    | (some err, w1) =>
      let task1 :=
        if task.ErrorMsg = "" then
          { task with ErrorMsg := "同步地址薄 " ++ syncGroup.GroupName ++ " 失败: " ++ err }
        else task
      syncGroupsLoop c ipv4IPs rest task1 calls1 w1
    | (none, w1) =>
      let task1 := { task with AddedIPs := task.AddedIPs ++ filteredIPs.map (fun ip => ip.IP) }
      syncGroupsLoop c ipv4IPs rest task1 calls1 w1

/-- The method `Scheduler.executeSyncTask`; the clock is read at `startTime` and,
in the deferred function, at `endTime`. -/
def Scheduler.executeSyncTask {σ : Type} (config : SyncConfig) (c : Clients σ)
    (startTime endTime : Nat) (w : σ) : PassResult σ :=
  let task : SyncTask :=
    { TaskId := "sync_" ++ toString startTime, Status := "running", StartTime := startTime,
      EndTime := 0, SourceIPs := [], AddedIPs := [], RemovedIPs := [], ErrorMsg := "" }
  match c.GetL2IPList w with
  | (.error err, w1) =>
    let task1 := { task with Status := "failed",
                             ErrorMsg := "查询DCDN L2节点IP信息失败: " ++ err }
    { err := some task1.ErrorMsg, task := finishTask task1 endTime, calls := [Call.fetch],
      world := w1 }
  | (.ok sourceIPs, w1) =>
    let task1 := { task with SourceIPs := task.SourceIPs ++ sourceIPs.map (fun ip => ip.IP) }
    let ipv4IPs := Scheduler.filterIPv4Addresses sourceIPs
    match syncGroupsLoop c ipv4IPs config.AddressGroups task1 [Call.fetch] w1 with
    | (task2, calls, w2) =>
      let task3 := { task2 with AddedIPs := Scheduler.removeDuplicateIPs task2.AddedIPs }
      let task4 :=
        if task3.ErrorMsg ≠ "" then { task3 with Status := "completed_with_errors" } else task3
      { err := none, task := finishTask task4 endTime, calls := calls, world := w2 }

/-! ## Concrete collaborators and scenarios -/

/-- A source record as `DCDNClient.parseL2IPs` builds it from one address. -/
def sourceRecord (ip : String) : DCDNSourceIPInfo :=
  { IP := ip, Location := "Global", ISP := "阿里云", Status := "Active", LastUpdated := 0 }

/-- Collaborators with a fixed fetch result whose sync call fails, with the error
`denied`, exactly for the group names listed in `failing`. -/
def fixedClients (fetched : Except String (List DCDNSourceIPInfo)) (failing : List String) :
    Clients Unit where
  GetL2IPList := fun w => (fetched, w)
  SyncAddressBook := fun groupName _ w =>
    (if groupName ∈ failing then some "denied" else none, w)

/-- The group `v4-all` of the end-to-end scenario of the specification. -/
def scenarioAll (ipType : String) : AddressGroup :=
  { GroupName := "v4-all", Description := "", IPType := ipType,
    IncludePatterns := ["*"], ExcludePatterns := ["10.*", "192.168.*"] }

/-- The group `v4-strict` of the end-to-end scenario of the specification. -/
def scenarioStrict (ipType : String) : AddressGroup :=
  { GroupName := "v4-strict", Description := "", IPType := ipType,
    IncludePatterns := ["203.0.*"], ExcludePatterns := [] }

/-- The two address groups of the end-to-end scenario of the specification. -/
def scenarioGroups (ipType1 ipType2 : String) : List AddressGroup :=
  [scenarioAll ipType1, scenarioStrict ipType2]

/-- The fetched source list of the end-to-end scenario of the specification. -/
def scenarioSource : List DCDNSourceIPInfo :=
  [sourceRecord "203.0.113.5", sourceRecord "10.1.1.1", sourceRecord "8.8.4.4"]

/-! ## Contracts of the specification -/

/-- The Pattern Matcher contract of the specification, its rules taken in order. -/
def specMatch (text pattern : String) : Bool :=
  if pattern = "*" then true
  else if pattern = "" then decide (text = "")
  else if pattern.data.head? = some '*' then decide (pattern.data.tail <:+ text.data)
  else if pattern.data.getLast? = some '*' then decide (pattern.data.dropLast <+: text.data)
  else decide (text = pattern)

/-- The Address Group Filter contract over a matcher `m`: a record is kept iff its IP
matches no exclude pattern and the include list is empty or some include pattern matches. -/
def specKeeps (m : String → String → Bool) (incl excl : List String)
    (ip : DCDNSourceIPInfo) : Bool :=
  !(excl.any (fun p => m ip.IP p)) && (incl.isEmpty || incl.any (fun p => m ip.IP p))

/-- The contract of the de-duplication: keep the first occurrence of each string. -/
def keepFirst : List String → List String
  | [] => []
  | x :: xs => x :: (keepFirst xs).filter (fun y => y ≠ x)

/-- The outcomes of the per-group sync calls of a pass, in configuration order:
each group with the error its call returned (`none` when the call succeeded). -/
def syncOutcomes {σ : Type} (c : Clients σ) (ipv4IPs : List DCDNSourceIPInfo) :
    List AddressGroup → σ → List (AddressGroup × Option String)
  | [], _ => []
  | g :: rest, w =>
    (g, (c.SyncAddressBook g.GroupName (Scheduler.filterSourceIPs ipv4IPs g) w).1)
      :: syncOutcomes c ipv4IPs rest
          (c.SyncAddressBook g.GroupName (Scheduler.filterSourceIPs ipv4IPs g) w).2

/-- The first failed group of a list of outcomes, with its error. -/
def firstFailure : List (AddressGroup × Option String) → Option (AddressGroup × String)
  | [] => none
  | (g, some err) :: _ => some (g, err)
  | (_, none) :: rest => firstFailure rest

/-- The error message a pass builds for a failed group. -/
def groupErrorMsg (g : AddressGroup) (err : String) : String :=
  "同步地址薄 " ++ g.GroupName ++ " 失败: " ++ err

/-- The error message a pass records for a list of outcomes: the message of the
first failed group, the empty string when no group failed. -/
def recordedErrorMsg (outs : List (AddressGroup × Option String)) : String :=
  match firstFailure outs with
  | some (g, err) => groupErrorMsg g err
  | none => ""

/-- The concatenation, in configuration order, of the filtered IP strings of the
groups whose sync call succeeded. -/
def addedBySucceeded (ipv4IPs : List DCDNSourceIPInfo) :
    List (AddressGroup × Option String) → List String
  | [] => []
  | (g, none) :: rest =>
    (Scheduler.filterSourceIPs ipv4IPs g).map (fun ip => ip.IP) ++ addedBySucceeded ipv4IPs rest
  | (_, some _) :: rest => addedBySucceeded ipv4IPs rest

/-- Result of the IP Normalizer contract of the specification. -/
structure Normalized where
  canonical : String
  isIPv4 : Bool
  valid : Bool
  deriving DecidableEq

/-- The IP Normalizer contract of the specification: a text with `/` is parsed as a
CIDR, invalid when the parse fails, not IPv4 when its network address is not
representable as IPv4, else canonical as `network/prefixlen`; any other text is parsed
as a bare literal, invalid when the parse fails, not IPv4 when not IPv4-mappable, else
canonical in dotted decimal. -/
def specNormalize (raw : String) : Normalized :=
  if containsSlash raw then
    match ParseCIDR raw with
    | none => { canonical := "", isIPv4 := false, valid := false }
    | some (_, ipNet) =>
      if (To4 (ipNet.IP.getD [])).isSome then
        { canonical := ipNet.String, isIPv4 := true, valid := true }
      else { canonical := "", isIPv4 := false, valid := true }
  else
    match ParseIP raw with
    | none => { canonical := "", isIPv4 := false, valid := false }
    | some ip =>
      if (To4 ip).isSome then { canonical := IPString ip, isIPv4 := true, valid := true }
      else { canonical := "", isIPv4 := false, valid := true }

/-- Every element of the list is a byte. -/
def Bytes (l : List Nat) : Prop := ∀ x ∈ l, x < 256

/-- The dotted-decimal text `a.b.c.d`. -/
def dottedText (a b c d : Nat) : String := ⟨string4 [a, b, c, d]⟩

/-- The CIDR text `a.b.c.d/n`, the prefix length in decimal. -/
def cidrText (a b c d n : Nat) : String := ⟨string4 [a, b, c, d] ++ '/' :: (Nat.repr n).data⟩

/-- The bytes `a, b, c, d` under the network mask of prefix length `n`. -/
def networkBytes (a b c d n : Nat) : List Nat :=
  List.zipWith (fun x y => x &&& y) [a, b, c, d] (cidrMaskLoop 4 n)

/-- A bare IPv4 literal in dotted decimal. -/
def IsIPv4Literal (s : String) : Prop :=
  ∃ a b c d, a < 256 ∧ b < 256 ∧ c < 256 ∧ d < 256 ∧ s = dottedText a b c d

/-- An IPv4 CIDR block: a dotted-decimal address with a prefix length from 0 to 32. -/
def IsIPv4CIDR (s : String) : Prop :=
  ∃ a b c d n, a < 256 ∧ b < 256 ∧ c < 256 ∧ d < 256 ∧ n ≤ 32 ∧ s = cidrText a b c d n

/-! ## Configuration loading (`internal/config/config.go`) -/

/-- The record `config.AliyunConfig`, shared by the DCDN and the firewall sections. -/
structure AliyunConfig where
  AccessKeyId : String
  AccessKeySecret : String
  Region : String
  deriving DecidableEq

/-- The record `config.SchedulerConfig`. -/
structure SchedulerConfig where
  Cron : String
  Interval : String
  RunOnStart : Bool
  Timeout : String
  MaxRetries : Int
  deriving DecidableEq

/-- The record `config.LogConfig`. -/
structure LogConfig where
  Level : String
  Format : String
  FilePath : String
  deriving DecidableEq

/-- The record `config.Config`. -/
structure Config where
  DCDN : AliyunConfig
  Firewall : AliyunConfig
  Scheduler : SchedulerConfig
  Sync : SyncConfig
  Logging : LogConfig
  deriving DecidableEq

/-- The function `setDefaults`. -/
def setDefaults (config : Config) : Config :=
  let c1 := if config.Scheduler.Interval = "" then
    { config with Scheduler := { config.Scheduler with Interval := "168h" } } else config
  let c2 := if c1.Scheduler.Timeout = "" then
    { c1 with Scheduler := { c1.Scheduler with Timeout := "30m" } } else c1
  let c3 := if c2.Scheduler.MaxRetries = 0 then
    { c2 with Scheduler := { c2.Scheduler with MaxRetries := 3 } } else c2
  let c4 := if c3.Logging.Level = "" then
    { c3 with Logging := { c3.Logging with Level := "info" } } else c3
  let c5 := if c4.Logging.Format = "" then
    { c4 with Logging := { c4.Logging with Format := "text" } } else c4
  let c6 := if c5.DCDN.Region = "" then
    { c5 with DCDN := { c5.DCDN with Region := "ap-southeast-1" } } else c5
  if c6.Firewall.Region = "" then
    { c6 with Firewall := { c6.Firewall with Region := "ap-southeast-1" } } else c6

/-- The function `validateConfig`: `none` is the nil error. -/
def validateConfig (config : Config) : Option String :=
  if config.Sync.AddressGroups.length = 0 then some "防火墙地址组列表不能为空" else none

/-- The function `LoadConfig` from the point where the file has been read and
unmarshalled; `unmarshalled` is the configuration in the file, or the error that
`LoadConfig` returns for a file it cannot read or parse. -/
def LoadConfig (unmarshalled : Except String Config) : Except String Config :=
  match unmarshalled with
  | .error err => .error err
  | .ok config =>
    let config1 := setDefaults config
    match validateConfig config1 with
    | some err => .error ("配置验证失败: " ++ err)
    | none => .ok config1

/-! ## The one-shot pass (`performSync` of `cmd/main.go`) -/

/-- The fields of `Scheduler` that the life-cycle methods touch: whether `ctx` is
cancelled, the cron dispatcher (`none` for nil, else whether it is running) and whether
`stopCh` is closed. -/
structure SchedulerState where
  ctxDone : Bool
  cron : Option Bool
  stopChClosed : Bool
  deriving DecidableEq

/-- The constructor `NewScheduler`: a live context, no dispatcher, an open channel. -/
def NewScheduler : SchedulerState :=
  { ctxDone := false, cron := none, stopChClosed := false }

/-- The method `Scheduler.Stop`; an error is a Go panic with that message.  Cancelling
a context and stopping a dispatcher may be repeated, closing a closed channel panics. -/
def Scheduler.Stop (s : SchedulerState) : Except String SchedulerState :=
  let s1 := { s with ctxDone := true }
  let s2 :=
    match s1.cron with
    | some _ => { s1 with cron := some false }
    | none => s1
  if s2.stopChClosed then .error "close of closed channel"
  else .ok { s2 with stopChClosed := true }

/-- How `Start` leaves its set-up: with a returned error, with a Go panic, in the tick
loop of the interval mode with that period in nanoseconds, or waiting in cron mode. -/
inductive StartOutcome where
  | setupError (msg : String)
  | panicked (msg : String)
  | ticking (period : Int)
  | cronWaiting
  deriving DecidableEq

/-- The set-up of `Scheduler.startWithInterval`, up to the entry of its loop.
`ParseDuration` is `time.ParseDuration` of the Go library, in nanoseconds;
`time.NewTicker` panics on a period that is not positive. -/
def Scheduler.startWithInterval (ParseDuration : String → Except String Int)
    (interval : String) : StartOutcome :=
  match ParseDuration interval with
  | .error err => .setupError ("解析执行间隔失败: " ++ err)
  | .ok d =>
    if d ≤ 0 then .panicked "non-positive interval for NewTicker"
    else .ticking d

/-- The set-up of `Scheduler.startWithCron`; `AddFunc` is the registration of the cron
expression with the dispatcher, `none` when it is accepted. -/
def Scheduler.startWithCron (AddFunc : String → Option String) (cron : String) :
    StartOutcome :=
  match AddFunc cron with
  | some err => .setupError ("添加cron任务失败: " ++ err)
  | none => .cronWaiting

/-- Result of `Scheduler.Start`: the initial pass, when `run_on_start` is set, and the
way the set-up ends. -/
structure StartResult (σ : Type) where
  initial : Option (PassResult σ)
  outcome : StartOutcome

/-- The method `Scheduler.Start` up to the entry of the chosen mode. -/
def Scheduler.Start {σ : Type} (ParseDuration : String → Except String Int)
    (AddFunc : String → Option String) (config : Config) (c : Clients σ)
    (startTime endTime : Nat) (w : σ) : StartResult σ :=
  let initial :=
    if config.Scheduler.RunOnStart then
      some (Scheduler.executeSyncTask config.Sync c startTime endTime w)
    else none
  if config.Scheduler.Cron ≠ "" then
    { initial := initial, outcome := Scheduler.startWithCron AddFunc config.Scheduler.Cron }
  else
    { initial := initial,
      outcome := Scheduler.startWithInterval ParseDuration config.Scheduler.Interval }

/-! ## The tick loop of the interval mode -/

/-- Where the goroutine of `startWithInterval` stands: at the `select`, inside
`executeSyncTask`, or returned. -/
inductive LoopPhase where
  | selecting
  | inPass
  | returned
  deriving DecidableEq

/-- The tick loop with what it waits on: the scheduler fields that `Stop` sets, whether
the channel of the ticker (which holds at most one tick) holds a tick, and the phase. -/
structure LoopState where
  sched : SchedulerState
  tickPending : Bool
  phase : LoopPhase
  deriving DecidableEq

/-- One step of the loop or of its environment: the ticker delivers a tick; another
goroutine calls `Stop`, which returns; the `select` takes the tick and `executeSyncTask`
starts; `executeSyncTask` returns; the `select` takes `ctx.Done()`; the `select` takes
`stopCh`. -/
inductive LoopEvent where
  | tick
  | stop
  | selectTick
  | passReturns
  | selectCtxDone
  | selectStopCh
  deriving DecidableEq

/-- The step relation of the loop as a function: the state after an event, `none` when
the event cannot happen.  A `select` case can be taken whenever its channel is ready,
whatever other cases are ready (Go chooses among the ready cases at random); a tick on
a full channel is dropped; the deferred `ticker.Stop` ends the ticks on return. -/
def loopStep (s : LoopState) : LoopEvent → Option LoopState
  | .tick => if s.phase = .returned then none else some { s with tickPending := true }
  | .stop =>
    match Scheduler.Stop s.sched with
    | .ok sched1 => some { s with sched := sched1 }
    | .error _ => none
  | .selectTick =>
    if s.phase = .selecting ∧ s.tickPending = true then
      some { s with tickPending := false, phase := .inPass }
    else none
  | .passReturns => if s.phase = .inPass then some { s with phase := .selecting } else none
  | .selectCtxDone =>
    if s.phase = .selecting ∧ s.sched.ctxDone = true then some { s with phase := .returned }
    else none
  | .selectStopCh =>
    if s.phase = .selecting ∧ s.sched.stopChClosed = true then
      some { s with phase := .returned }
    else none

/-- An execution: the state after a sequence of events, `none` when one cannot happen. -/
def loopRun : LoopState → List LoopEvent → Option LoopState
  | s, [] => some s
  | s, e :: rest =>
    match loopStep s e with
    | none => none
    | some s1 => loopRun s1 rest

/-- The loop as `startWithInterval` enters it from a new scheduler. -/
def loopStart : LoopState :=
  { sched := NewScheduler, tickPending := false, phase := .selecting }

/-- Whether a pass starts after a `Stop` has returned in a sequence of events. -/
def passStartsAfterStop : List LoopEvent → Bool
  | [] => false
  | .stop :: rest => decide (LoopEvent.selectTick ∈ rest) || passStartsAfterStop rest
  | _ :: rest => passStartsAfterStop rest

/-! ## `time.ParseDuration` of the Go standard library -/

namespace Time

/-- Go `time.leadingInt`: the leading decimal number and the rest, `none` on overflow. -/
def leadingInt : List Char → Nat → Option (Nat × List Char)
  | [], x => some (x, [])
  | c :: rest, x =>
    if !isDigit c then some (x, c :: rest)
    else if x > 2 ^ 63 / 10 then none
    else if x * 10 + (c.toNat - 48) > 2 ^ 63 then none
    else leadingInt rest (x * 10 + (c.toNat - 48))

/-- Go `time.leadingFraction`: the digits after the point as a number, their scale and
the rest; digits past the overflow are skipped. -/
def leadingFraction : List Char → Nat → Nat → Bool → Nat × Nat × List Char
  | [], x, scale, _ => (x, scale, [])
  | c :: rest, x, scale, overflow =>
    if !isDigit c then (x, scale, c :: rest)
    else if overflow then leadingFraction rest x scale true
    else if x > (2 ^ 63 - 1) / 10 then leadingFraction rest x scale true
    else if x * 10 + (c.toNat - 48) > 2 ^ 63 then leadingFraction rest x scale true
    else leadingFraction rest (x * 10 + (c.toNat - 48)) (scale * 10) false

/-- The table `unitMap`: nanoseconds per unit. -/
def unitMap (u : String) : Option Nat :=
  if u = "ns" then some 1
  else if u = "us" then some 1000
  else if u = "µs" then some 1000
  else if u = "μs" then some 1000
  else if u = "ms" then some 1000000
  else if u = "s" then some 1000000000
  else if u = "m" then some 60000000000
  else if u = "h" then some 3600000000000
  else none

/-- The message of an invalid duration; the quoting of Go is plain here. -/
def invalid (orig : String) : String := "time: invalid duration \"" ++ orig ++ "\""

/-- The loop of `time.ParseDuration` over the groups of number and unit; every round
reads at least one character.  The part after a decimal point, which Go scales in
floating point, is scaled exactly here, so the model is the library on every text
without digits after a point. -/
def parseGroups (orig : String) : Nat → List Char → Nat → Except String Nat
  | 0, _, d => .ok d
  | fuel + 1, s, d =>
    match s with
    | [] => .ok d
    | c0 :: _ =>
      if !(c0 = '.' || isDigit c0) then .error (invalid orig)
      else
        match leadingInt s 0 with
        | none => .error (invalid orig)
        | some (v, s1) =>
          let pre := decide (s.length ≠ s1.length)
          let fr : Nat × Nat × List Char × Bool :=
            match s1 with
            | '.' :: s2 =>
              ((leadingFraction s2 0 1 false).1, (leadingFraction s2 0 1 false).2.1,
                (leadingFraction s2 0 1 false).2.2,
                decide (s2.length ≠ (leadingFraction s2 0 1 false).2.2.length))
            | _ => (0, 1, s1, false)
          if !pre && !fr.2.2.2 then .error (invalid orig)
          else
            let u := fr.2.2.1.takeWhile (fun c => !(c = '.' || isDigit c))
            let s3 := fr.2.2.1.dropWhile (fun c => !(c = '.' || isDigit c))
            if u.length = 0 then .error ("time: missing unit in duration \"" ++ orig ++ "\"")
            else
              match unitMap ⟨u⟩ with
              | none =>
                .error ("time: unknown unit \"" ++ String.mk u ++ "\" in duration \""
                  ++ orig ++ "\"")
              | some unit =>
                if v > 2 ^ 63 / unit then .error (invalid orig)
                else
                  let v1 := v * unit + (if fr.1 > 0 then fr.1 * unit / fr.2.1 else 0)
                  if fr.1 > 0 ∧ v1 > 2 ^ 63 then .error (invalid orig)
                  else if d + v1 > 2 ^ 63 then .error (invalid orig)
                  else parseGroups orig fuel s3 (d + v1)

/-- Go `time.ParseDuration`, in nanoseconds. -/
def ParseDuration (orig : String) : Except String Int :=
  let neg := decide (orig.data.head? = some '-')
  let s := if orig.data.head? = some '-' ∨ orig.data.head? = some '+' then orig.data.drop 1
    else orig.data
  if s = ['0'] then .ok 0
  else if s = [] then .error (invalid orig)
  else
    match parseGroups orig s.length s 0 with
    | .error err => .error err
    | .ok d =>
      if neg then .ok (-(d : Int))
      else if d > 2 ^ 63 - 1 then .error (invalid orig)
      else .ok (d : Int)

end Time

/-! ## Models of the remote service -/

/-- An address book held by the remote model: its name, its description and its address
list as sent in the last write (the entries separated by commas). -/
structure Book where
  name : String
  description : String
  addressList : String
  deriving DecidableEq

/-- The identifier the remote model gives the book at a position of its store: no two
positions share one. -/
def uuidOf (i : Nat) : String := ⟨List.replicate (i + 1) 'u'⟩

/-- The entries of a comma-separated address list. -/
def splitCommas : List Char → List Char → List String
  | [], cur => [⟨cur⟩]
  | c :: rest, cur => if c = ',' then ⟨cur⟩ :: splitCommas rest [] else splitCommas rest (cur ++ [c])

/-- The listing of the books of a store whose first position is `i`. -/
def listingFrom (i : Nat) : List Book → List (Option DescribeAddressBookResponseBodyAcls)
  | [] => []
  | b :: rest =>
    some { GroupUuid := some (uuidOf i), GroupName := some b.name,
           Description := some b.description,
           AddressList := (splitCommas b.addressList.data []).map some }
      :: listingFrom (i + 1) rest

/-- The store, first position `i`, after the address list of the book with the given
identifier is overwritten. -/
def overwriteFrom (i : Nat) (uuid addressList : String) : List Book → List Book
  | [] => []
  | b :: rest =>
    (if uuidOf i = uuid then { b with addressList := addressList } else b)
      :: overwriteFrom (i + 1) uuid addressList rest

/-- The remote model of the idempotence property: the state is the store of books, a
create request adds a book holding the given list, a replace request overwrites the
list of the book with the given identifier, the listing reports all books, and no call
fails. -/
def memoryRemote : CloudFW (List Book) where
  DescribeAddressBook := fun _ books => (.ok (some { Acls := listingFrom 0 books }), books)
  AddAddressBook := fun request books =>
    (none, books ++ [{ name := request.GroupName, description := request.Description,
                       addressList := request.AddressList }])
  ModifyAddressBook := fun request books =>
    (none, overwriteFrom 0 request.GroupUuid request.AddressList books)

/-- The collaborators of a pass over the remote model: a fetch with a fixed result and
`FirewallClient.SyncAddressBook` of the client configured with `sync`. -/
def memoryClients (sync : SyncConfig) (fetched : Except String (List DCDNSourceIPInfo)) :
    Clients (List Book) where
  GetL2IPList := fun books => (fetched, books)
  SyncAddressBook := fun groupName sourceIPs books =>
    FirewallClient.SyncAddressBook sync memoryRemote groupName sourceIPs books

/-- The content of the address book of a group in a store: the address list of the
first book of that name. -/
def bookContent (groupName : String) : List Book → Option String
  | [] => none
  | b :: rest => if b.name = groupName then some b.addressList else bookContent groupName rest

/-- Writing a group into a store: the first book of that name gets the address list, or
a new book is added at the end when there is none. -/
def upsert (name description addressList : String) : List Book → List Book
  | [] => [{ name := name, description := description, addressList := addressList }]
  | b :: rest =>
    if b.name = name then { b with addressList := addressList } :: rest
    else b :: upsert name description addressList rest

/-- The number written by a text of decimal digits. -/
def decimal (s : String) : Nat := s.data.foldl (fun n c => n * 10 + (c.toNat - 48)) 0

/-- A remote service that serves its listing in pages: a request for page `p` of size
`n` gets the books at positions `(p - 1) * n` to `p * n - 1`; writes are accepted. -/
def pagedRemote (books : List DescribeAddressBookResponseBodyAcls) : CloudFW Unit where
  DescribeAddressBook := fun request r =>
    (.ok (some { Acls := ((books.drop ((decimal request.CurrentPage - 1)
        * decimal request.PageSize)).take (decimal request.PageSize)).map some }), r)
  AddAddressBook := fun _ r => (none, r)
  ModifyAddressBook := fun _ r => (none, r)

/-- A listed book with the given name and identifier and no address. -/
def listedBook (name uuid : String) : DescribeAddressBookResponseBodyAcls :=
  { GroupUuid := some uuid, GroupName := some name, Description := some "", AddressList := [] }

/-- A listing of fifty-one books: fifty named `other`, then the book `target`. -/
def fiftyOneBooks : List DescribeAddressBookResponseBodyAcls :=
  List.replicate 50 (listedBook "other" "uuid-other") ++ [listedBook "target" "uuid-target"]

/-! ## Writes by name on the remote model -/

/-- A sequence of writes by name, each a name, a description and an address list,
applied to a store in order. -/
def runWrites (ops : List (String × String × String)) (books : List Book) : List Book :=
  ops.foldl (fun s o => upsert o.1 o.2.1 o.2.2 s) books

/-- The address list a book of the given name holds after a sequence of writes, when it
held `cur` before: that of the last write to the name. -/
def finalList (name : String) (ops : List (String × String × String)) (cur : String) :
    String :=
  ops.foldl (fun acc o => if o.1 = name then o.2.2 else acc) cur

/-- The writes a pass makes for a list of groups: for each group its name, the description
configured for that name and the joined normalised address list. -/
def writesOf (sync : SyncConfig) (ipv4IPs : List DCDNSourceIPInfo) (groups : List AddressGroup) :
    List (String × String × String) :=
  groups.map (fun g =>
    (g.GroupName,
     ((findGroup g.GroupName sync.AddressGroups).map (fun g0 => g0.Description)).getD "",
     String.intercalate "," (syncNewIPs (Scheduler.filterSourceIPs ipv4IPs g))))

/-! ## Outcomes of the one-shot pass -/

/-- A configuration file content with one address group and the interval `0s`. -/
def zeroIntervalConfig : Config :=
  { DCDN := ⟨"id", "secret", "cn-hangzhou"⟩, Firewall := ⟨"id", "secret", "cn-hangzhou"⟩,
    Scheduler := ⟨"", "0s", false, "30m", 3⟩, Sync := ⟨[scenarioAll "ipv4"]⟩,
    Logging := ⟨"info", "text", ""⟩ }

/-- A configuration file content with two address groups of the same name `g` and
different descriptions. -/
def duplicateNameConfig : Config :=
  { DCDN := ⟨"id", "secret", "cn-hangzhou"⟩, Firewall := ⟨"id", "secret", "cn-hangzhou"⟩,
    Scheduler := ⟨"", "168h", false, "30m", 3⟩,
    Sync := ⟨[⟨"g", "first", "ipv4", [], []⟩, ⟨"g", "second", "ipv4", ["8.*"], []⟩]⟩,
    Logging := ⟨"info", "text", ""⟩ }

/-! ## Go string primitives against list operations -/

theorem len_eq_zero_iff (s : String) : len s = 0 ↔ s = "" := by
  unfold len
  rw [List.length_eq_zero]
  constructor
  · intro h
    exact String.ext h
  · intro h
    rw [h]

theorem byteAt_zero (s : String) : byteAt s 0 = s.data.head? := by
  simp [byteAt, List.head?_eq_getElem?]

theorem byteAt_last (s : String) : byteAt s (len s - 1) = s.data.getLast? := by
  simp [byteAt, len, List.getLast?_eq_getElem?]

theorem suffix_test_iff (text suffix : String) :
    (len text ≥ len suffix ∧ sliceFrom text (len text - len suffix) = suffix)
      ↔ suffix.data <:+ text.data := by
  simp only [len, sliceFrom, String.ext_iff]
  constructor
  · rintro ⟨_, h⟩
    exact List.suffix_iff_eq_drop.mpr h.symm
  · intro h
    exact ⟨h.length_le, (List.suffix_iff_eq_drop.mp h).symm⟩

theorem pre_test_iff (text pre : String) :
    (len text ≥ len pre ∧ sliceTo text (len pre) = pre) ↔ pre.data <+: text.data := by
  simp only [len, sliceTo, String.ext_iff]
  constructor
  · rintro ⟨_, h⟩
    exact List.prefix_iff_eq_take.mpr h.symm
  · intro h
    exact ⟨h.length_le, (List.prefix_iff_eq_take.mp h).symm⟩

/-! ## The pattern matchers -/

theorem matchPattern_eq_specMatch (text pattern : String) :
    matchPattern text pattern = specMatch text pattern := by
  unfold matchPattern specMatch
  by_cases h1 : pattern = "*"
  · simp [h1]
  · by_cases h2 : pattern = ""
    · subst h2
      have h0 : len "" = 0 := rfl
      simp only [h1, h0, if_true, if_false, len_eq_zero_iff]
    · have h2a : ¬ len pattern = 0 := fun h => h2 ((len_eq_zero_iff _).mp h)
      simp only [h1, h2, h2a, if_false, byteAt_zero, byteAt_last]
      by_cases h3 : pattern.data.head? = some '*'
      · simp only [h3, if_true]
        rw [← Bool.decide_and, decide_eq_decide]
        have := suffix_test_iff text (sliceFrom pattern 1)
        simpa [sliceFrom] using this
      · simp only [h3, if_false]
        by_cases h4 : pattern.data.getLast? = some '*'
        · simp only [h4, if_true]
          rw [← Bool.decide_and, decide_eq_decide]
          have := pre_test_iff text (sliceTo pattern (len pattern - 1))
          simpa [sliceTo, len, List.dropLast_eq_take] using this
        · simp only [h4, if_false]

theorem matchIPPattern_iff (ip pattern : String) :
    matchIPPattern ip pattern = true ↔
      (pattern = "*" ∨ pattern = ip
        ∨ (pattern.data.getLast? = some '*' ∧ pattern.data.dropLast <+: ip.data)) := by
  unfold matchIPPattern
  by_cases h1 : pattern = "*" ∨ pattern = ip
  · rcases h1 with h | h <;> simp [h]
  · have ha : ¬ pattern = "*" := fun h => h1 (Or.inl h)
    have hb : ¬ pattern = ip := fun h => h1 (Or.inr h)
    simp only [h1, ha, hb, if_false, false_or, byteAt_last]
    by_cases h4 : pattern.data.getLast? = some '*'
    · have hpos : len pattern > 0 := by
        rcases Nat.eq_zero_or_pos (len pattern) with h0 | h0
        · rw [(len_eq_zero_iff _).mp h0] at h4
          simp at h4
        · exact h0
      simp only [h4, hpos, and_self, if_true, true_and]
      rw [← Bool.decide_and, decide_eq_true_iff]
      have := pre_test_iff ip (sliceTo pattern (len pattern - 1))
      simpa [sliceTo, len, List.dropLast_eq_take] using this
    · simp [h4]

/-! ## The address-group filters -/

theorem anyMatch_eq_any (m : String → String → Bool) (ip : String) (ps : List String) :
    anyMatch m ip ps = ps.any (fun p => m ip p) := by
  induction ps with
  | nil => rfl
  | cons p ps ih =>
    simp only [anyMatch, List.any_cons, ih]
    cases m ip p <;> simp

theorem schedulerKeeps_eq (group : AddressGroup) (ip : DCDNSourceIPInfo) :
    schedulerKeeps group ip
      = specKeeps matchIPPattern group.IncludePatterns group.ExcludePatterns ip := by
  unfold schedulerKeeps specKeeps
  simp only [anyMatch_eq_any]
  cases group.ExcludePatterns.any (fun p => matchIPPattern ip.IP p) <;>
    cases hI : group.IncludePatterns with
    | nil => simp
    | cons a l => cases (a :: l).any (fun p => matchIPPattern ip.IP p) <;> simp

theorem mainKeeps_eq (incl excl : List String) (ip : DCDNSourceIPInfo) :
    mainKeeps incl excl ip = specKeeps matchPattern incl excl ip := by
  unfold mainKeeps specKeeps
  simp only [anyMatch_eq_any]
  cases excl.any (fun p => matchPattern ip.IP p) <;>
    cases incl with
    | nil => simp
    | cons a l => cases (a :: l).any (fun p => matchPattern ip.IP p) <;> simp

theorem schedulerFilterLoop_eq (group : AddressGroup) (ips acc : List DCDNSourceIPInfo) :
    schedulerFilterLoop group ips acc = acc ++ ips.filter (schedulerKeeps group) := by
  induction ips generalizing acc with
  | nil => simp [schedulerFilterLoop]
  | cons ip rest ih =>
    simp only [schedulerFilterLoop, List.filter_cons]
    split <;> simp [ih]

theorem mainFilterLoop_eq (incl excl : List String) (ips acc : List DCDNSourceIPInfo) :
    mainFilterLoop incl excl ips acc = acc ++ ips.filter (mainKeeps incl excl) := by
  induction ips generalizing acc with
  | nil => simp [mainFilterLoop]
  | cons ip rest ih =>
    simp only [mainFilterLoop, List.filter_cons]
    split <;> simp [ih]

theorem specKeeps_nil (m : String → String → Bool) (ip : DCDNSourceIPInfo) :
    specKeeps m [] [] ip = true := by
  simp [specKeeps]

theorem scheduler_filter_eq (ips : List DCDNSourceIPInfo) (group : AddressGroup) :
    Scheduler.filterSourceIPs ips group
      = ips.filter (specKeeps matchIPPattern group.IncludePatterns group.ExcludePatterns) := by
  unfold Scheduler.filterSourceIPs
  split
  · rename_i h
    rw [List.length_eq_zero, List.length_eq_zero] at h
    rw [h.1, h.2]
    exact (List.filter_eq_self.mpr (fun a _ => specKeeps_nil _ a)).symm
  · rw [schedulerFilterLoop_eq, List.nil_append]
    congr 1
    funext ip
    exact schedulerKeeps_eq group ip

theorem main_filter_eq (ips : List DCDNSourceIPInfo) (incl excl : List String) :
    filterSourceIPs ips incl excl = ips.filter (specKeeps matchPattern incl excl) := by
  unfold filterSourceIPs
  split
  · rename_i h
    rw [List.length_eq_zero, List.length_eq_zero] at h
    rw [h.1, h.2]
    exact (List.filter_eq_self.mpr (fun a _ => specKeeps_nil _ a)).symm
  · rw [mainFilterLoop_eq, List.nil_append]
    congr 1
    funext ip
    exact mainKeeps_eq incl excl ip

/-! ## De-duplication -/

theorem mem_keepFirst (x : String) (l : List String) : x ∈ keepFirst l ↔ x ∈ l := by
  induction l with
  | nil => simp [keepFirst]
  | cons a l ih =>
    simp only [keepFirst, List.mem_cons, List.mem_filter, ih, decide_eq_true_eq]
    by_cases h : x = a <;> simp [h]

theorem keepFirst_nodup (l : List String) : (keepFirst l).Nodup := by
  induction l with
  | nil => simp [keepFirst]
  | cons a l ih =>
    simp only [keepFirst, List.nodup_cons, List.mem_filter, decide_eq_true_eq]
    exact ⟨fun h => h.2 rfl, ih.filter _⟩

theorem keepFirst_sublist (l : List String) : List.Sublist (keepFirst l) l := by
  induction l with
  | nil => simp [keepFirst]
  | cons a l ih =>
    simp only [keepFirst]
    exact ((List.filter_sublist _).trans ih).cons₂ a

theorem keepFirst_filter (q : String → Bool) (l : List String) :
    keepFirst (l.filter q) = (keepFirst l).filter q := by
  induction l with
  | nil => simp [keepFirst]
  | cons a l ih =>
    by_cases h : q a = true
    · simp only [List.filter_cons, h, if_true, keepFirst, ih, List.filter_filter]
      congr 1
      apply List.filter_congr
      intro x _
      exact Bool.and_comm _ _
    · have hf : q a = false := by simpa using h
      simp only [List.filter_cons, hf, keepFirst, ih, List.filter_filter, Bool.false_eq_true,
        if_false]
      apply List.filter_congr
      intro x _
      by_cases hx : x = a
      · subst hx
        simp [hf]
      · simp [hx]

theorem removeDuplicateLoop_eq (l seen result : List String) :
    removeDuplicateLoop l seen result
      = result ++ keepFirst (l.filter (fun x => decide (x ∉ seen))) := by
  induction l generalizing seen result with
  | nil => simp [removeDuplicateLoop, keepFirst]
  | cons a l ih =>
    simp only [removeDuplicateLoop, List.filter_cons]
    by_cases h : a ∈ seen
    · simp only [h, if_true, ih, not_true_eq_false, decide_False]
      rfl
    · simp only [h, if_false, ih, not_false_eq_true, decide_True, if_true, keepFirst,
        List.append_assoc, List.singleton_append]
      congr 2
      rw [← keepFirst_filter, List.filter_filter]
      congr 1
      apply List.filter_congr
      intro x _
      by_cases hx : x = a <;> simp [hx, h]

theorem removeDuplicateIPs_eq_keepFirst (l : List String) :
    Scheduler.removeDuplicateIPs l = keepFirst l := by
  unfold Scheduler.removeDuplicateIPs
  rw [removeDuplicateLoop_eq]
  simp

/-! ## One synchronisation pass -/

theorem append_ne_empty (a b : String) (h : a ≠ "") : a ++ b ≠ "" := by
  intro hab
  apply h
  have h1 : (a ++ b).length = 0 := by rw [hab]; rfl
  rw [String.length_append] at h1
  have h2 : a.data.length = 0 := by
    have : a.length = 0 := by omega
    exact this
  exact String.ext (List.length_eq_zero.mp h2)

theorem groupErrorMsg_ne_empty (g : AddressGroup) (err : String) : groupErrorMsg g err ≠ "" := by
  unfold groupErrorMsg
  apply append_ne_empty
  apply append_ne_empty
  apply append_ne_empty
  decide

theorem syncGroupsLoop_calls {σ : Type} (c : Clients σ) (ipv4IPs : List DCDNSourceIPInfo)
    (groups : List AddressGroup) (task : SyncTask) (calls : List Call) (w : σ) :
    (syncGroupsLoop c ipv4IPs groups task calls w).2.1
      = calls ++ groups.map
          (fun g => Call.sync g.GroupName (Scheduler.filterSourceIPs ipv4IPs g)) := by
  induction groups generalizing task calls w with
  | nil => simp [syncGroupsLoop]
  | cons g rest ih =>
    simp only [syncGroupsLoop]
    split <;> simp [ih]

theorem syncGroupsLoop_task {σ : Type} (c : Clients σ) (ipv4IPs : List DCDNSourceIPInfo)
    (groups : List AddressGroup) (task : SyncTask) (calls : List Call) (w : σ) :
    (syncGroupsLoop c ipv4IPs groups task calls w).1
      = { task with
          ErrorMsg := if task.ErrorMsg = "" then
              recordedErrorMsg (syncOutcomes c ipv4IPs groups w) else task.ErrorMsg
          AddedIPs := task.AddedIPs
            ++ addedBySucceeded ipv4IPs (syncOutcomes c ipv4IPs groups w) } := by
  induction groups generalizing task calls w with
  | nil =>
    cases task
    simp only [syncGroupsLoop, syncOutcomes, recordedErrorMsg, firstFailure, addedBySucceeded,
      List.append_nil]
    congr
    split
    · rename_i h
      exact h
    · rfl
  | cons g rest ih =>
    simp only [syncGroupsLoop, syncOutcomes]
    rcases hr : c.SyncAddressBook g.GroupName (Scheduler.filterSourceIPs ipv4IPs g) w
      with ⟨e, w1⟩
    cases e with
    | none =>
      simp only [ih, recordedErrorMsg, firstFailure, addedBySucceeded, List.append_assoc]
    | some err =>
      simp only [ih, recordedErrorMsg, firstFailure, addedBySucceeded]
      by_cases h0 : task.ErrorMsg = ""
      · have hne := groupErrorMsg_ne_empty g err
        unfold groupErrorMsg at hne
        simp only [h0, if_true, hne, if_false, groupErrorMsg]
      · simp only [h0, if_false]

/-- The pass after a successful fetch, in terms of the outcomes of its sync calls. -/
theorem executeSyncTask_ok {σ : Type} (config : SyncConfig) (c : Clients σ)
    (startTime endTime : Nat) (w : σ) (source : List DCDNSourceIPInfo)
    (h : (c.GetL2IPList w).1 = .ok source) :
    (Scheduler.executeSyncTask config c startTime endTime w).err = none
    ∧ (Scheduler.executeSyncTask config c startTime endTime w).calls
        = Call.fetch :: config.AddressGroups.map (fun g =>
            Call.sync g.GroupName
              (Scheduler.filterSourceIPs (Scheduler.filterIPv4Addresses source) g))
    ∧ (Scheduler.executeSyncTask config c startTime endTime w).task.ErrorMsg
        = recordedErrorMsg (syncOutcomes c (Scheduler.filterIPv4Addresses source)
            config.AddressGroups (c.GetL2IPList w).2)
    ∧ (Scheduler.executeSyncTask config c startTime endTime w).task.AddedIPs
        = Scheduler.removeDuplicateIPs (addedBySucceeded (Scheduler.filterIPv4Addresses source)
            (syncOutcomes c (Scheduler.filterIPv4Addresses source)
              config.AddressGroups (c.GetL2IPList w).2))
    ∧ (Scheduler.executeSyncTask config c startTime endTime w).task.Status
        = (if recordedErrorMsg (syncOutcomes c (Scheduler.filterIPv4Addresses source)
              config.AddressGroups (c.GetL2IPList w).2) = ""
            then "completed" else "completed_with_errors") := by
  rcases hf : c.GetL2IPList w with ⟨r, w1⟩
  rw [hf] at h
  simp only at h
  subst h
  have hc := syncGroupsLoop_calls c (Scheduler.filterIPv4Addresses source) config.AddressGroups
  have ht := syncGroupsLoop_task c (Scheduler.filterIPv4Addresses source) config.AddressGroups
  unfold Scheduler.executeSyncTask
  simp only [hf, hc, ht]
  simp only [finishTask, List.nil_append, if_true, List.singleton_append, true_and]
  by_cases hm : recordedErrorMsg (syncOutcomes c (Scheduler.filterIPv4Addresses source)
      config.AddressGroups w1) = ""
  · simp [hm]
  · simp [hm]

theorem executeSyncTask_error {σ : Type} (config : SyncConfig) (c : Clients σ)
    (startTime endTime : Nat) (w : σ) (e : String)
    (h : (c.GetL2IPList w).1 = .error e) :
    Scheduler.executeSyncTask config c startTime endTime w
      = { err := some ("查询DCDN L2节点IP信息失败: " ++ e)
          task := { TaskId := "sync_" ++ toString startTime, Status := "failed",
                    StartTime := startTime, EndTime := endTime, SourceIPs := [], AddedIPs := [],
                    RemovedIPs := [], ErrorMsg := "查询DCDN L2节点IP信息失败: " ++ e }
          calls := [Call.fetch]
          world := (c.GetL2IPList w).2 } := by
  rcases hf : c.GetL2IPList w with ⟨r, w1⟩
  rw [hf] at h
  simp only at h
  subst h
  unfold Scheduler.executeSyncTask
  simp only [hf]
  have hne : ("failed" : String) ≠ "running" := by decide
  simp [finishTask, hne]

/-! ## Dotted-decimal text read back by the parser -/

theorem digit_char (k : Nat) (hk : k < 10) :
    isDigit (Char.ofNat (48 + k)) = true ∧ (Char.ofNat (48 + k)).toNat - 48 = k
      ∧ Char.ofNat (48 + k) ≠ '.' ∧ Char.ofNat (48 + k) ≠ '/' ∧ Char.ofNat (48 + k) ≠ ':'
      ∧ Char.ofNat (48 + k) ≠ '%' := by
  interval_cases k <;> decide

theorem parseIPv4FieldsLoop_digit (k : Nat) (hk : k < 10) (rest : List Char) (prev : Option Char)
    (val pos digLen : Nat) (fields : List Nat) :
    parseIPv4FieldsLoop (Char.ofNat (48 + k) :: rest) prev val pos digLen fields
      = if digLen = 1 ∧ val = 0 then none
        else if val * 10 + k > 255 then none
        else parseIPv4FieldsLoop rest (some (Char.ofNat (48 + k))) (val * 10 + k) pos (digLen + 1)
          fields := by
  obtain ⟨h1, h2, _⟩ := digit_char k hk
  simp only [parseIPv4FieldsLoop, h1, if_true, h2]

/-- Reading the decimal text of a byte leaves its value in `val`. -/
theorem parseIPv4FieldsLoop_appendDecimal (x : Nat) (hx : x < 256) (rest : List Char)
    (prev : Option Char) (pos : Nat) (fields : List Nat) :
    ∃ k digLen, k < 10 ∧
      parseIPv4FieldsLoop (appendDecimal x ++ rest) prev 0 pos 0 fields
        = parseIPv4FieldsLoop rest (some (Char.ofNat (48 + k))) x pos digLen fields := by
  unfold appendDecimal
  by_cases h100 : x ≥ 100
  · have h10 : x ≥ 10 := by omega
    refine ⟨x % 10, 3, by omega, ?_⟩
    simp only [h100, h10, if_true, List.append_assoc, List.singleton_append, List.cons_append,
      List.nil_append]
    rw [parseIPv4FieldsLoop_digit _ (by omega), parseIPv4FieldsLoop_digit _ (by omega),
      parseIPv4FieldsLoop_digit _ (by omega)]
    have e1 : ¬ (0 = 1 ∧ 0 = 0) := by omega
    have e2 : ¬ (0 * 10 + x / 100 > 255) := by omega
    have e3 : ¬ (0 + 1 = 1 ∧ 0 * 10 + x / 100 = 0) := by omega
    have e4 : ¬ ((0 * 10 + x / 100) * 10 + x / 10 % 10 > 255) := by omega
    have e5 : ¬ (0 + 1 + 1 = 1 ∧ (0 * 10 + x / 100) * 10 + x / 10 % 10 = 0) := by omega
    have e6 : ¬ (((0 * 10 + x / 100) * 10 + x / 10 % 10) * 10 + x % 10 > 255) := by omega
    have e7 : ((0 * 10 + x / 100) * 10 + x / 10 % 10) * 10 + x % 10 = x := by omega
    rw [if_neg e1, if_neg e2, if_neg e3, if_neg e4, if_neg e5, if_neg e6, e7]
  · by_cases h10 : x ≥ 10
    · refine ⟨x % 10, 2, by omega, ?_⟩
      simp only [h100, h10, if_true, if_false, List.append_assoc, List.singleton_append,
        List.cons_append, List.nil_append]
      rw [parseIPv4FieldsLoop_digit _ (by omega), parseIPv4FieldsLoop_digit _ (by omega)]
      have e1 : ¬ (0 = 1 ∧ 0 = 0) := by omega
      have e2 : ¬ (0 * 10 + x / 10 % 10 > 255) := by omega
      have e3 : ¬ (0 + 1 = 1 ∧ 0 * 10 + x / 10 % 10 = 0) := by omega
      have e4 : ¬ ((0 * 10 + x / 10 % 10) * 10 + x % 10 > 255) := by omega
      have e7 : (0 * 10 + x / 10 % 10) * 10 + x % 10 = x := by omega
      rw [if_neg e1, if_neg e2, if_neg e3, if_neg e4, e7]
    · refine ⟨x % 10, 1, by omega, ?_⟩
      simp only [h100, h10, if_false, List.append_assoc, List.singleton_append,
        List.cons_append, List.nil_append]
      rw [parseIPv4FieldsLoop_digit _ (by omega)]
      have e1 : ¬ (0 = 1 ∧ 0 = 0) := by omega
      have e2 : ¬ (0 * 10 + x % 10 > 255) := by omega
      have e7 : 0 * 10 + x % 10 = x := by omega
      rw [if_neg e1, if_neg e2, e7]

theorem parseIPv4FieldsLoop_dot (k : Nat) (hk : k < 10) (rest : List Char)
    (val pos digLen : Nat) (fields : List Nat) (hrest : rest ≠ []) (hpos : pos ≠ 3) :
    parseIPv4FieldsLoop ('.' :: rest) (some (Char.ofNat (48 + k))) val pos digLen fields
      = parseIPv4FieldsLoop rest (some '.') 0 (pos + 1) 0 (fields.set pos val) := by
  obtain ⟨_, _, h3, _⟩ := digit_char k hk
  have hd : isDigit '.' = false := by decide
  have hp : ¬ (some (Char.ofNat (48 + k)) = some '.') := by
    intro h
    exact h3 (Option.some.inj h)
  simp [parseIPv4FieldsLoop, hd, hrest, hpos, hp]

/-- The decimal text of a byte is a non-empty run of digits. -/
theorem appendDecimal_digits (x : Nat) (hx : x < 256) :
    ∃ ks : List Nat, ks ≠ [] ∧ (∀ k ∈ ks, k < 10)
      ∧ appendDecimal x = ks.map (fun k => Char.ofNat (48 + k)) := by
  unfold appendDecimal
  by_cases h100 : x ≥ 100 <;> by_cases h10 : x ≥ 10
  · refine ⟨[x / 100, x / 10 % 10, x % 10], by simp, ?_, ?_⟩
    · intro k hk
      simp at hk
      omega
    · simp [h100, h10]
  · omega
  · refine ⟨[x / 10 % 10, x % 10], by simp, ?_, ?_⟩
    · intro k hk
      simp at hk
      omega
    · simp [h100, h10]
  · refine ⟨[x % 10], by simp, ?_, ?_⟩
    · intro k hk
      simp at hk
      omega
    · simp [h100, h10]

theorem appendDecimal_ne_nil (x : Nat) (rest : List Char) : appendDecimal x ++ rest ≠ [] := by
  unfold appendDecimal
  simp

theorem parseAddrScan_digits (whole rest : List Char) (ks : List Nat) (hks : ∀ k ∈ ks, k < 10) :
    parseAddrScan whole (ks.map (fun k => Char.ofNat (48 + k)) ++ '.' :: rest)
      = (parseIPv4Fields whole).map Addr.v4 := by
  induction ks with
  | nil => simp [parseAddrScan]
  | cons k ks ih =>
    obtain ⟨_, _, h3, _, h5, h6⟩ := digit_char k (hks k (List.mem_cons_self _ _))
    simp only [List.map_cons, List.cons_append, parseAddrScan, h3, h5, h6, if_false]
    exact ih (fun k hk => hks k (List.mem_cons_of_mem _ hk))

theorem slash_not_mem_digits (ks : List Nat) (hks : ∀ k ∈ ks, k < 10) :
    '/' ∉ ks.map (fun k => Char.ofNat (48 + k)) := by
  intro h
  rw [List.mem_map] at h
  obtain ⟨k, hk, he⟩ := h
  exact (digit_char k (hks k hk)).2.2.2.1 he

theorem slash_not_mem_appendDecimal (x : Nat) (hx : x < 256) : '/' ∉ appendDecimal x := by
  obtain ⟨ks, _, hks, he⟩ := appendDecimal_digits x hx
  rw [he]
  exact slash_not_mem_digits ks hks

theorem slash_not_mem_string4 (a b c d : Nat) (ha : a < 256) (hb : b < 256) (hc : c < 256)
    (hd : d < 256) : '/' ∉ string4 [a, b, c, d] := by
  have h1 := slash_not_mem_appendDecimal a ha
  have h2 := slash_not_mem_appendDecimal b hb
  have h3 := slash_not_mem_appendDecimal c hc
  have h4 := slash_not_mem_appendDecimal d hd
  simp [string4, h1, h2, h3, h4]

/-- Dotted decimal text written by `string4` is read back by `parseIPv4Fields`. -/
theorem parseIPv4Fields_string4 (a b c d : Nat) (ha : a < 256) (hb : b < 256) (hc : c < 256)
    (hd : d < 256) : parseIPv4Fields (string4 [a, b, c, d]) = some [a, b, c, d] := by
  unfold parseIPv4Fields string4
  simp only [List.getD_cons_zero, List.getD_cons_succ, List.append_assoc, List.cons_append]
  obtain ⟨k1, d1, hk1, e1⟩ := parseIPv4FieldsLoop_appendDecimal a ha
    ('.' :: (appendDecimal b ++ '.' :: (appendDecimal c ++ '.' :: appendDecimal d))) none 0
    [0, 0, 0, 0]
  rw [e1, parseIPv4FieldsLoop_dot k1 hk1 _ _ _ _ _ (appendDecimal_ne_nil _ _) (by decide)]
  obtain ⟨k2, d2, hk2, e2⟩ := parseIPv4FieldsLoop_appendDecimal b hb
    ('.' :: (appendDecimal c ++ '.' :: appendDecimal d)) (some '.') (0 + 1)
    ([0, 0, 0, 0].set 0 a)
  rw [e2, parseIPv4FieldsLoop_dot k2 hk2 _ _ _ _ _ (appendDecimal_ne_nil _ _) (by decide)]
  obtain ⟨k3, d3, hk3, e3⟩ := parseIPv4FieldsLoop_appendDecimal c hc
    ('.' :: appendDecimal d) (some '.') (0 + 1 + 1) (([0, 0, 0, 0].set 0 a).set (0 + 1) b)
  rw [e3, parseIPv4FieldsLoop_dot k3 hk3 _ _ _ _ _ (by
    have := appendDecimal_ne_nil d []
    simpa using this) (by decide)]
  obtain ⟨k4, d4, hk4, e4⟩ := parseIPv4FieldsLoop_appendDecimal d hd
    [] (some '.') (0 + 1 + 1 + 1) ((([0, 0, 0, 0].set 0 a).set (0 + 1) b).set (0 + 1 + 1) c)
  rw [List.append_nil] at e4
  rw [e4]
  simp [parseIPv4FieldsLoop]

theorem ParseAddr_string4 (a b c d : Nat) (ha : a < 256) (hb : b < 256) (hc : c < 256)
    (hd : d < 256) : ParseAddr ⟨string4 [a, b, c, d]⟩ = some (Addr.v4 [a, b, c, d]) := by
  unfold ParseAddr
  obtain ⟨ks, _, hks, he⟩ := appendDecimal_digits a ha
  have hscan : parseAddrScan (string4 [a, b, c, d]) (string4 [a, b, c, d])
      = (parseIPv4Fields (string4 [a, b, c, d])).map Addr.v4 := by
    conv_lhs => arg 2; unfold string4
    simp only [List.getD_cons_zero, List.append_assoc, List.cons_append, he]
    exact parseAddrScan_digits _ _ ks hks
  rw [hscan, parseIPv4Fields_string4 a b c d ha hb hc hd]
  rfl

theorem ParseIP_string4 (a b c d : Nat) (ha : a < 256) (hb : b < 256) (hc : c < 256)
    (hd : d < 256) :
    ParseIP ⟨string4 [a, b, c, d]⟩ = some [0, 0, 0, 0, 0, 0, 0, 0, 0, 0, 255, 255, a, b, c, d] := by
  unfold ParseIP
  rw [ParseAddr_string4 a b c d ha hb hc hd]
  rfl

theorem To4_mapped (a b c d : Nat) :
    To4 [0, 0, 0, 0, 0, 0, 0, 0, 0, 0, 255, 255, a, b, c, d] = some [a, b, c, d] := by
  simp [To4]

theorem To4_four (a b c d : Nat) : To4 [a, b, c, d] = some [a, b, c, d] := by
  simp [To4]

theorem containsSlash_string4 (a b c d : Nat) (ha : a < 256) (hb : b < 256) (hc : c < 256)
    (hd : d < 256) : containsSlash ⟨string4 [a, b, c, d]⟩ = false := by
  unfold containsSlash
  simpa using slash_not_mem_string4 a b c d ha hb hc hd

/-- A dotted-decimal IPv4 literal passes the IPv4 stage. -/
theorem isIPv4_string4 (a b c d : Nat) (ha : a < 256) (hb : b < 256) (hc : c < 256)
    (hd : d < 256) : Scheduler.isIPv4 ⟨string4 [a, b, c, d]⟩ = true := by
  unfold Scheduler.isIPv4
  rw [ParseIP_string4 a b c d ha hb hc hd]
  simp [To4_mapped]

/-- A dotted-decimal IPv4 literal is pushed unchanged. -/
theorem syncNormalizeEntry_string4 (a b c d : Nat) (ha : a < 256) (hb : b < 256) (hc : c < 256)
    (hd : d < 256) :
    syncNormalizeEntry ⟨string4 [a, b, c, d]⟩ = some ⟨string4 [a, b, c, d]⟩ := by
  unfold syncNormalizeEntry FirewallClient.isValidIP
  rw [containsSlash_string4 a b c d ha hb hc hd, ParseIP_string4 a b c d ha hb hc hd]
  simp [To4_mapped, IPString]

theorem takeWhile_not_slash (l r : List Char) (h : '/' ∉ l) :
    (l ++ '/' :: r).takeWhile (fun c => decide (c ≠ '/')) = l := by
  induction l with
  | nil => simp [List.takeWhile]
  | cons x l ih =>
    have hx : x ≠ '/' := fun e => h (by simp [e])
    have hl : '/' ∉ l := fun e => h (List.mem_cons_of_mem _ e)
    have hp : decide (x ≠ '/') = true := by simpa using hx
    rw [List.cons_append, List.takeWhile_cons]
    simp only [hp, if_true]
    rw [ih hl]

theorem dropWhile_not_slash (l r : List Char) (h : '/' ∉ l) :
    (l ++ '/' :: r).dropWhile (fun c => decide (c ≠ '/')) = '/' :: r := by
  induction l with
  | nil => simp [List.dropWhile]
  | cons x l ih =>
    have hx : x ≠ '/' := fun e => h (by simp [e])
    have hl : '/' ∉ l := fun e => h (List.mem_cons_of_mem _ e)
    have hp : decide (x ≠ '/') = true := by simpa using hx
    rw [List.cons_append, List.dropWhile_cons]
    simp only [hp, if_true]
    rw [ih hl]

theorem cidrMaskLoop_length (l n : Nat) : (cidrMaskLoop l n).length = l := by
  induction l generalizing n with
  | zero => rfl
  | succ l ih =>
    unfold cidrMaskLoop
    split <;> simp [ih]

theorem dtoi_repr (n : Nat) (hn : n ≤ 32) :
    dtoi (Nat.repr n).data = (n, (Nat.repr n).data.length, true) := by
  interval_cases n <;> decide

theorem simpleMaskLength_cidr4 (n : Nat) (hn : n ≤ 32) :
    simpleMaskLength (cidrMaskLoop 4 n) = some n := by
  interval_cases n <;> decide

theorem Mask_mapped (a b c d m0 m1 m2 m3 : Nat) :
    Mask [0, 0, 0, 0, 0, 0, 0, 0, 0, 0, 255, 255, a, b, c, d] [m0, m1, m2, m3]
      = some [a &&& m0, b &&& m1, c &&& m2, d &&& m3] := by
  simp [Mask]

theorem list_of_length_four (m : List Nat) (h : m.length = 4) :
    ∃ m0 m1 m2 m3, m = [m0, m1, m2, m3] := by
  match m, h with
  | [m0, m1, m2, m3], _ => exact ⟨m0, m1, m2, m3, rfl⟩

/-- A dotted-decimal CIDR `a.b.c.d/n` parses to the mapped address and the masked network. -/
theorem ParseCIDR_cidr4 (a b c d n : Nat) (ha : a < 256) (hb : b < 256) (hc : c < 256)
    (hd : d < 256) (hn : n ≤ 32) :
    ParseCIDR ⟨string4 [a, b, c, d] ++ '/' :: (Nat.repr n).data⟩
      = some ([0, 0, 0, 0, 0, 0, 0, 0, 0, 0, 255, 255, a, b, c, d],
          { IP := some (List.zipWith (fun x y => x &&& y) [a, b, c, d] (cidrMaskLoop 4 n)),
            Mask := some (cidrMaskLoop 4 n) }) := by
  have hs := slash_not_mem_string4 a b c d ha hb hc hd
  obtain ⟨m0, m1, m2, m3, hm⟩ := list_of_length_four _ (cidrMaskLoop_length 4 n)
  have hn32 : ¬ n > 32 := by omega
  unfold ParseCIDR
  simp only [List.mem_append, List.mem_cons, true_or, or_true, if_true,
    takeWhile_not_slash _ _ hs, dropWhile_not_slash _ _ hs, List.drop_succ_cons, List.drop_zero,
    ParseAddr_string4 a b c d ha hb hc hd, dtoi_repr n hn, Addr.Zone, Addr.BitLen, Addr.As16,
    CIDRMask, hm]
  simp [hn32, Mask_mapped]

theorem IPNet_String_cidr4 (a b c d n : Nat) (hn : n ≤ 32) :
    IPNet.String { IP := some (List.zipWith (fun x y => x &&& y) [a, b, c, d] (cidrMaskLoop 4 n)),
                   Mask := some (cidrMaskLoop 4 n) }
      = ⟨string4 (List.zipWith (fun x y => x &&& y) [a, b, c, d] (cidrMaskLoop 4 n))
          ++ '/' :: (Nat.repr n).data⟩ := by
  have hl := simpleMaskLength_cidr4 n hn
  obtain ⟨m0, m1, m2, m3, hm⟩ := list_of_length_four _ (cidrMaskLoop_length 4 n)
  rw [hm] at hl ⊢
  simp [IPNet.String, networkNumberAndMask, To4_four, hl, IPString]

theorem containsSlash_cidr (l r : List Char) : containsSlash ⟨l ++ '/' :: r⟩ = true := by
  simp [containsSlash]

/-- A dotted-decimal CIDR `a.b.c.d/n` is pushed as its network address followed by `/n`. -/
theorem syncNormalizeEntry_cidr4 (a b c d n : Nat) (ha : a < 256) (hb : b < 256) (hc : c < 256)
    (hd : d < 256) (hn : n ≤ 32) :
    syncNormalizeEntry ⟨string4 [a, b, c, d] ++ '/' :: (Nat.repr n).data⟩
      = some ⟨string4 (List.zipWith (fun x y => x &&& y) [a, b, c, d] (cidrMaskLoop 4 n))
          ++ '/' :: (Nat.repr n).data⟩ := by
  unfold syncNormalizeEntry FirewallClient.isValidIP
  rw [containsSlash_cidr, ParseCIDR_cidr4 a b c d n ha hb hc hd hn]
  simp [To4_mapped, IPNet_String_cidr4 a b c d n hn]

/-! ## Bytes of parsed addresses and network masks -/

theorem Bytes.set {l : List Nat} (h : Bytes l) (i v : Nat) (hv : v < 256) : Bytes (l.set i v) := by
  intro x hx
  rcases List.mem_or_eq_of_mem_set hx with h1 | h1
  · exact h x h1
  · rw [h1]; exact hv

theorem parseIPv4FieldsLoop_bytes (s : List Char) (prev : Option Char) (val pos digLen : Nat)
    (fields : List Nat) (hval : val < 256) (hf : Bytes fields) (r : Nat × Nat × List Nat)
    (hr : parseIPv4FieldsLoop s prev val pos digLen fields = some r) :
    r.1 < 256 ∧ Bytes r.2.2 := by
  induction s generalizing prev val pos digLen fields with
  | nil =>
    simp only [parseIPv4FieldsLoop, Option.some.injEq] at hr
    subst hr
    exact ⟨hval, hf⟩
  | cons c rest ih =>
    simp only [parseIPv4FieldsLoop] at hr
    split at hr
    · split at hr
      · exact absurd hr (by simp)
      · split at hr
        · exact absurd hr (by simp)
        · rename_i h255
          exact ih _ _ _ _ _ (by omega) hf hr
    · split at hr
      · split at hr
        · exact absurd hr (by simp)
        · split at hr
          · exact absurd hr (by simp)
          · exact ih _ _ _ _ _ (by omega) (hf.set _ _ hval) hr
      · exact absurd hr (by simp)

theorem parseIPv4Fields_bytes (s : List Char) (f : List Nat) (h : parseIPv4Fields s = some f) :
    Bytes f := by
  unfold parseIPv4Fields at h
  split at h
  · exact absurd h (by simp)
  · rename_i val pos fields heq
    have hb := parseIPv4FieldsLoop_bytes s none 0 0 0 [0, 0, 0, 0] (by omega)
      (by intro x hx; simp at hx; omega) _ heq
    split at h
    · exact absurd h (by simp)
    · simp only [Option.some.injEq] at h
      subst h
      exact hb.2.set _ _ hb.1

theorem Bytes.getD {l : List Nat} (h : Bytes l) (i : Nat) : l.getD i 0 < 256 := by
  rw [List.getD_eq_getElem?_getD]
  cases hi : l[i]? with
  | none => simp
  | some v =>
    simp only [Option.getD_some]
    exact h v (List.getElem?_mem hi)

theorem parseIPv6Loop_bytes (fuel : Nat) (s : List Char) (i : Nat) (ip : List Nat)
    (ellipsis : Option Nat) (hip : Bytes ip)
    (r : List Char × Nat × List Nat × Option Nat)
    (hr : parseIPv6Loop fuel s i ip ellipsis = some r) : Bytes r.2.2.1 := by
  induction fuel generalizing s i ip ellipsis with
  | zero =>
    simp only [parseIPv6Loop, Option.some.injEq] at hr
    subst hr
    exact hip
  | succ fuel ih =>
    simp only [parseIPv6Loop] at hr
    split at hr
    · simp only [Option.some.injEq] at hr
      subst hr
      exact hip
    · split at hr
      · exact absurd hr (by simp)
      · rename_i off acc rest hg
        have hip1 : Bytes ((ip.set i (acc / 256 % 256)).set (i + 1) (acc % 256)) :=
          (hip.set _ _ (Nat.mod_lt _ (by decide))).set _ _ (Nat.mod_lt _ (by decide))
        split at hr
        · exact absurd hr (by simp)
        · split at hr
          · split at hr
            · exact absurd hr (by simp)
            · split at hr
              · exact absurd hr (by simp)
              · split at hr
                · exact absurd hr (by simp)
                · rename_i f hf4
                  have hfb := parseIPv4Fields_bytes _ _ hf4
                  simp only [Option.some.injEq] at hr
                  subst hr
                  exact (((hip.set _ _ (hfb.getD 0)).set _ _ (hfb.getD 1)).set _ _
                    (hfb.getD 2)).set _ _ (hfb.getD 3)
          · split at hr
            · simp only [Option.some.injEq] at hr
              subst hr
              exact hip1
            · split at hr
              · exact absurd hr (by simp)
              · split at hr
                · exact absurd hr (by simp)
                · split at hr
                  · split at hr
                    · exact absurd hr (by simp)
                    · split at hr
                      · simp only [Option.some.injEq] at hr
                        subst hr
                        exact hip1
                      · exact ih _ _ _ _ hip1 hr
                  · exact ih _ _ _ _ hip1 hr

theorem Bytes.replicate_zero (n : Nat) : Bytes (List.replicate n 0) := by
  intro x hx
  rw [List.mem_replicate] at hx
  omega

theorem Bytes.append {l r : List Nat} (hl : Bytes l) (hr : Bytes r) : Bytes (l ++ r) := by
  intro x hx
  rcases List.mem_append.mp hx with h | h
  · exact hl x h
  · exact hr x h

theorem Bytes.take {l : List Nat} (h : Bytes l) (n : Nat) : Bytes (l.take n) :=
  fun x hx => h x (List.mem_of_mem_take hx)

theorem Bytes.drop {l : List Nat} (h : Bytes l) (n : Nat) : Bytes (l.drop n) :=
  fun x hx => h x (List.mem_of_mem_drop hx)

theorem parseIPv6Body_bytes (s : List Char) (b : List Nat) (h : parseIPv6Body s = some b) :
    Bytes b := by
  unfold parseIPv6Body at h
  simp only at h
  split at h
  · simp only [Option.some.injEq] at h
    subst h
    exact Bytes.replicate_zero 16
  · split at h
    · exact absurd h (by simp)
    · rename_i rest i ip ellipsis hl
      have hb : Bytes ip := parseIPv6Loop_bytes _ _ _ _ _ (Bytes.replicate_zero 16) _ hl
      split at h
      · exact absurd h (by simp)
      · split at h
        · split at h
          · exact absurd h (by simp)
          · simp only [Option.some.injEq] at h
            subst h
            exact ((hb.take _).append (Bytes.replicate_zero _)).append ((hb.take _).drop _)
        · split at h
          · exact absurd h (by simp)
          · simp only [Option.some.injEq] at h
            subst h
            exact hb

theorem parseIPv6_bytes (s : List Char) (addr : Addr) (h : parseIPv6 s = some addr) :
    Bytes addr.As16 := by
  unfold parseIPv6 at h
  split at h
  · simp only at h
    split at h
    · exact absurd h (by simp)
    · rw [Option.map_eq_some'] at h
      obtain ⟨b, hb, he⟩ := h
      subst he
      exact parseIPv6Body_bytes _ _ hb
  · rw [Option.map_eq_some'] at h
    obtain ⟨b, hb, he⟩ := h
    subst he
    exact parseIPv6Body_bytes _ _ hb

theorem parseAddrScan_bytes (whole s : List Char) (addr : Addr)
    (h : parseAddrScan whole s = some addr) : Bytes addr.As16 := by
  induction s with
  | nil => simp [parseAddrScan] at h
  | cons c rest ih =>
    simp only [parseAddrScan] at h
    split at h
    · rw [Option.map_eq_some'] at h
      obtain ⟨b, hb, he⟩ := h
      subst he
      have hbb := parseIPv4Fields_bytes _ _ hb
      intro x hx
      simp only [Addr.As16, List.mem_append] at hx
      rcases hx with h1 | h1
      · simp at h1
        omega
      · exact hbb x h1
    · split at h
      · exact parseIPv6_bytes _ _ h
      · split at h
        · exact absurd h (by simp)
        · exact ih h

/-- Every address that `ParseAddr` returns consists of bytes. -/
theorem ParseAddr_bytes (s : String) (addr : Addr) (h : ParseAddr s = some addr) :
    Bytes addr.As16 :=
  parseAddrScan_bytes _ _ _ h

theorem land_255 (x : Nat) (hx : x < 256) : x &&& 255 = x := by
  have h : (255 : Nat) = 2 ^ 8 - 1 := by norm_num
  rw [h, Nat.and_pow_two_sub_one_eq_mod]
  exact Nat.mod_eq_of_lt hx

theorem partial_mask_byte_lt (n : Nat) (hn : n < 8) : 255 - 255 / 2 ^ n < 255 := by
  interval_cases n <;> decide

theorem cidrMaskLoop_le (l n : Nat) : ∀ x ∈ cidrMaskLoop l n, x ≤ 255 := by
  induction l generalizing n with
  | zero => simp [cidrMaskLoop]
  | succ l ih =>
    intro x hx
    unfold cidrMaskLoop at hx
    split at hx
    · rcases List.mem_cons.mp hx with h | h
      · omega
      · exact ih _ x h
    · rcases List.mem_cons.mp hx with h | h
      · rw [h]
        exact Nat.sub_le _ _
      · exact ih _ x h

/-- A mask byte is full only when the run of ones covers it. -/
theorem cidrMaskLoop_getD_full (l n k : Nat) (h : (cidrMaskLoop l n).getD k 0 = 255) :
    8 * (k + 1) ≤ n := by
  induction l generalizing n k with
  | zero => simp [cidrMaskLoop] at h
  | succ l ih =>
    unfold cidrMaskLoop at h
    split at h
    · cases k with
      | zero => omega
      | succ k =>
        rw [List.getD_cons_succ] at h
        have := ih _ _ h
        omega
    · rename_i hn
      cases k with
      | zero =>
        rw [List.getD_cons_zero] at h
        have := partial_mask_byte_lt n (by omega)
        omega
      | succ k =>
        rw [List.getD_cons_succ] at h
        have := ih _ _ h
        omega

/-- The mask bytes covered by the run of ones are full. -/
theorem cidrMaskLoop_getD_covered (l n k : Nat) (hk : k < l) (h : 8 * (k + 1) ≤ n) :
    (cidrMaskLoop l n).getD k 0 = 255 := by
  induction l generalizing n k with
  | zero => omega
  | succ l ih =>
    unfold cidrMaskLoop
    have hn : n ≥ 8 := by omega
    simp only [hn, if_true]
    cases k with
    | zero => rfl
    | succ k =>
      rw [List.getD_cons_succ]
      exact ih _ _ (by omega) (by omega)

theorem list_of_length_sixteen (m : List Nat) (h : m.length = 16) :
    ∃ x0 x1 x2 x3 x4 x5 x6 x7 x8 x9 x10 x11 x12 x13 x14 x15,
      m = [x0, x1, x2, x3, x4, x5, x6, x7, x8, x9, x10, x11, x12, x13, x14, x15] := by
  match m, h with
  | [x0, x1, x2, x3, x4, x5, x6, x7, x8, x9, x10, x11, x12, x13, x14, x15], _ =>
    exact ⟨x0, x1, x2, x3, x4, x5, x6, x7, x8, x9, x10, x11, x12, x13, x14, x15, rfl⟩

theorem To4_nil : To4 [] = none := by
  simp [To4]

theorem To4_isSome_of_length_four (ip : List Nat) (h : ip.length = 4) : (To4 ip).isSome = true := by
  simp [To4, h]

theorem Mask_same_length (ip mask : List Nat) (h4 : ip.length ≠ 4) (hm : mask.length ≠ 4) :
    Mask ip mask = if ip.length ≠ mask.length then none
      else some (List.zipWith (fun a b => a &&& b) ip mask) := by
  simp [Mask, h4, hm]

/-- When the masked network of an address of bytes is IPv4, so is the address. -/
theorem To4_of_To4_Mask (ip : List Nat) (hb : Bytes ip) (L n : Nat) (hL : L = 4 ∨ L = 16)
    (h : (To4 ((Mask ip (cidrMaskLoop L n)).getD [])).isSome = true) :
    (To4 ip).isSome = true := by
  by_cases h4 : ip.length = 4
  · exact To4_isSome_of_length_four ip h4
  · have hml : (cidrMaskLoop L n).length = L := cidrMaskLoop_length L n
    rcases hL with hL | hL
    · -- a four-byte mask: the address must carry the IPv4-mapped marker
      subst hL
      by_cases hp : ip.length = 16 ∧ ip.take 12 = [0, 0, 0, 0, 0, 0, 0, 0, 0, 0, 255, 255]
      · obtain ⟨x0, x1, x2, x3, x4, x5, x6, x7, x8, x9, x10, x11, x12, x13, x14, x15, hx⟩ :=
          list_of_length_sixteen ip hp.1
        have hp2 := hp.2
        rw [hx] at hp2 ⊢
        simp at hp2
        obtain ⟨e0, e1, e2, e3, e4, e5, e6, e7, e8, e9, e10, e11⟩ := hp2
        subst e0 e1 e2 e3 e4 e5 e6 e7 e8 e9 e10 e11
        simp [To4]
      · exfalso
        have hM : Mask ip (cidrMaskLoop 4 n) = none := by
          unfold Mask
          simp only [hml]
          have z1 : ¬ ((4 : Nat) = 16 ∧ ip.length = 4 ∧
              (List.take 12 (cidrMaskLoop 4 n)).all (fun b => decide (b = 255)) = true) := by
            omega
          rw [if_neg z1]
          simp only [hml, true_and]
          rw [if_neg hp]
          simp [h4, hml]
        rw [hM] at h
        simp [To4_nil] at h
    · subst hL
      by_cases h16 : ip.length = 16
      · obtain ⟨x0, x1, x2, x3, x4, x5, x6, x7, x8, x9, x10, x11, x12, x13, x14, x15, hx⟩ :=
          list_of_length_sixteen ip h16
        obtain ⟨m0, m1, m2, m3, m4, m5, m6, m7, m8, m9, m10, m11, m12, m13, m14, m15, hm⟩ :=
          list_of_length_sixteen _ hml
        have hM := Mask_same_length ip (cidrMaskLoop 16 n) h4 (by omega)
        rw [hM] at h
        have hfull : ∀ k, (cidrMaskLoop 16 n).getD k 0 = 255 → 8 * (k + 1) ≤ n :=
          fun k => cidrMaskLoop_getD_full 16 n k
        have hcov : ∀ k, k < 16 → 8 * (k + 1) ≤ n → (cidrMaskLoop 16 n).getD k 0 = 255 :=
          fun k => cidrMaskLoop_getD_covered 16 n k
        have hle : ∀ x ∈ cidrMaskLoop 16 n, x ≤ 255 := cidrMaskLoop_le 16 n
        rw [hm] at h hfull hcov hle
        rw [hx] at h hb ⊢
        simp [To4] at h
        obtain ⟨⟨a0, a1, a2, a3, a4, a5, a6, a7, a8, a9⟩, a10, a11⟩ := h
        have hm11 : m11 = 255 := by
          have h1 : x11 &&& m11 ≤ m11 := Nat.and_le_right
          have h2 : m11 ≤ 255 := hle m11 (by simp)
          omega
        have hn : 96 ≤ n := by
          have := hfull 11 (by simpa using hm11)
          omega
        have c0 := hcov 0 (by omega) (by omega)
        have c1 := hcov 1 (by omega) (by omega)
        have c2 := hcov 2 (by omega) (by omega)
        have c3 := hcov 3 (by omega) (by omega)
        have c4 := hcov 4 (by omega) (by omega)
        have c5 := hcov 5 (by omega) (by omega)
        have c6 := hcov 6 (by omega) (by omega)
        have c7 := hcov 7 (by omega) (by omega)
        have c8 := hcov 8 (by omega) (by omega)
        have c9 := hcov 9 (by omega) (by omega)
        have c10 := hcov 10 (by omega) (by omega)
        simp at c0 c1 c2 c3 c4 c5 c6 c7 c8 c9 c10
        subst c0 c1 c2 c3 c4 c5 c6 c7 c8 c9 c10 hm11
        have b : ∀ x, x ∈ [x0, x1, x2, x3, x4, x5, x6, x7, x8, x9, x10, x11, x12, x13, x14, x15]
            → x &&& 255 = x := fun x hxm => land_255 x (hb x hxm)
        rw [b x0 (by simp)] at a0
        rw [b x1 (by simp)] at a1
        rw [b x2 (by simp)] at a2
        rw [b x3 (by simp)] at a3
        rw [b x4 (by simp)] at a4
        rw [b x5 (by simp)] at a5
        rw [b x6 (by simp)] at a6
        rw [b x7 (by simp)] at a7
        rw [b x8 (by simp)] at a8
        rw [b x9 (by simp)] at a9
        rw [b x10 (by simp)] at a10
        rw [b x11 (by simp)] at a11
        subst a0 a1 a2 a3 a4 a5 a6 a7 a8 a9 a10 a11
        simp [To4]
      · exfalso
        have hM := Mask_same_length ip (cidrMaskLoop 16 n) h4 (by omega)
        rw [hM, hml] at h
        simp [h16, To4_nil] at h

/-! ## The two normalisation call sites -/

theorem filterIPv4Loop_eq (src acc : List DCDNSourceIPInfo) :
    filterIPv4Loop src acc = acc ++ src.filter (fun i => ipv4StageKeeps i.IP) := by
  induction src generalizing acc with
  | nil => simp [filterIPv4Loop]
  | cons i rest ih =>
    rw [List.filter_cons]
    by_cases hs : containsSlash i.IP = true
    · cases hp : ParseCIDR i.IP with
      | none =>
        have hk : ipv4StageKeeps i.IP = false := by simp [ipv4StageKeeps, hs, hp]
        simp only [filterIPv4Loop, hs, hp, hk, if_true, ih, Bool.false_eq_true, if_false]
      | some p =>
        rcases p with ⟨ip, ipNet⟩
        by_cases h4 : (To4 (ipNet.IP.getD [])).isSome = true
        · have hk : ipv4StageKeeps i.IP = true := by simp [ipv4StageKeeps, hs, hp, h4]
          simp only [filterIPv4Loop, hs, hp, hk, h4, if_true, ih, List.append_assoc,
            List.singleton_append]
        · have hk : ipv4StageKeeps i.IP = false := by simp [ipv4StageKeeps, hs, hp, h4]
          simp only [filterIPv4Loop, hs, hp, hk, h4, if_true, ih, Bool.false_eq_true, if_false]
    · by_cases h4 : Scheduler.isIPv4 i.IP = true
      · have hk : ipv4StageKeeps i.IP = true := by simp [ipv4StageKeeps, hs, h4]
        simp only [filterIPv4Loop, hs, hk, h4, if_true, ih, List.append_assoc,
          List.singleton_append, Bool.false_eq_true, if_false]
      · have hk : ipv4StageKeeps i.IP = false := by simp [ipv4StageKeeps, hs, h4]
        simp only [filterIPv4Loop, hs, hk, h4, ih, Bool.false_eq_true, if_false]

/-- The IPv4 stage is a filter: it emits the kept records unchanged, in input order. -/
theorem filterIPv4Addresses_eq_filter (src : List DCDNSourceIPInfo) :
    Scheduler.filterIPv4Addresses src = src.filter (fun i => ipv4StageKeeps i.IP) := by
  unfold Scheduler.filterIPv4Addresses
  rw [filterIPv4Loop_eq, List.nil_append]

theorem syncNormalizeLoop_eq (src : List DCDNSourceIPInfo) (acc : List String) :
    syncNormalizeLoop src acc = acc ++ src.filterMap (fun i => syncNormalizeEntry i.IP) := by
  induction src generalizing acc with
  | nil => simp [syncNormalizeLoop]
  | cons i rest ih =>
    simp only [syncNormalizeLoop, List.filterMap_cons]
    cases h : syncNormalizeEntry i.IP with
    | none => simp [ih]
    | some v => simp [ih]

/-- The pushed list holds, in input order, the pushed strings of the entries not skipped. -/
theorem syncNewIPs_eq_filterMap (src : List DCDNSourceIPInfo) :
    syncNewIPs src = src.filterMap (fun i => syncNormalizeEntry i.IP) := by
  unfold syncNewIPs
  rw [syncNormalizeLoop_eq, List.nil_append]

theorem ipv4StageKeeps_eq_spec (raw : String) :
    ipv4StageKeeps raw = ((specNormalize raw).valid && (specNormalize raw).isIPv4) := by
  unfold ipv4StageKeeps specNormalize Scheduler.isIPv4
  by_cases hs : containsSlash raw = true
  · simp only [hs, if_true]
    cases hp : ParseCIDR raw with
    | none => simp
    | some p =>
      rcases p with ⟨ip, ipNet⟩
      by_cases h4 : (To4 (ipNet.IP.getD [])).isSome = true <;> simp [h4]
  · simp only [hs]
    cases hp : ParseIP raw with
    | none => simp
    | some ip => by_cases h4 : (To4 ip).isSome = true <;> simp [h4]

theorem CIDRMask_of_le (n bits : Nat) (hb : bits = 32 ∨ bits = 128) (hn : ¬ n > bits) :
    CIDRMask n bits = some (cidrMaskLoop (bits / 8) n) := by
  unfold CIDRMask
  rcases hb with hb | hb <;> subst hb <;> simp [hn]

theorem ParseCIDR_shape (raw : String) (ip : IP) (ipNet : IPNet)
    (h : ParseCIDR raw = some (ip, ipNet)) :
    Bytes ip ∧ ∃ L n, (L = 4 ∨ L = 16) ∧ ipNet.IP = Mask ip (cidrMaskLoop L n) := by
  unfold ParseCIDR at h
  by_cases hs : '/' ∈ raw.data
  · simp only [hs, if_true] at h
    cases hpa : ParseAddr ⟨raw.data.takeWhile (fun c => decide (c ≠ '/'))⟩ with
    | none =>
      rw [hpa] at h
      exact absurd h (by simp)
    | some ipAddr =>
      rw [hpa] at h
      simp only at h
      by_cases hz : ipAddr.Zone ≠ ""
      · rw [if_pos hz] at h
        exact absurd h (by simp)
      · rw [if_neg hz] at h
        rcases hd : dtoi ((raw.data.dropWhile (fun c => decide (c ≠ '/'))).drop 1)
          with ⟨n, i, ok⟩
        rw [hd] at h
        simp only at h
        by_cases hcond : (!ok) = true ∨
            i ≠ ((raw.data.dropWhile (fun c => decide (c ≠ '/'))).drop 1).length
            ∨ n > ipAddr.BitLen
        · rw [if_pos hcond] at h
          exact absurd h (by simp)
        · rw [if_neg hcond] at h
          simp only [Option.some.injEq, Prod.mk.injEq] at h
          obtain ⟨h1, h2⟩ := h
          subst h1 h2
          have hn : ¬ n > ipAddr.BitLen := fun hgt => hcond (Or.inr (Or.inr hgt))
          refine ⟨ParseAddr_bytes _ _ hpa, ipAddr.BitLen / 8, n, ?_, ?_⟩
          · cases ipAddr <;> simp [Addr.BitLen]
          · have hbits : ipAddr.BitLen = 32 ∨ ipAddr.BitLen = 128 := by
              cases ipAddr <;> simp [Addr.BitLen]
            simp only [CIDRMask_of_le n _ hbits hn, Option.getD_some]
  · rw [if_neg hs] at h
    exact absurd h (by simp)

/-- Every entry the IPv4 stage keeps is pushed, as the canonical form of the contract. -/
theorem kept_entry_is_pushed (raw : String) (h : ipv4StageKeeps raw = true) :
    syncNormalizeEntry raw = some (specNormalize raw).canonical := by
  unfold ipv4StageKeeps at h
  unfold syncNormalizeEntry specNormalize FirewallClient.isValidIP
  by_cases hs : containsSlash raw = true
  · simp only [hs, if_true] at h ⊢
    cases hp : ParseCIDR raw with
    | none => simp [hp] at h
    | some p =>
      rcases p with ⟨ip, ipNet⟩
      rw [hp] at h
      simp only at h
      obtain ⟨hb, L, n, hL, hnet⟩ := ParseCIDR_shape raw ip ipNet hp
      rw [hnet] at h
      have hip := To4_of_To4_Mask ip hb L n hL h
      rw [← hnet] at h
      obtain ⟨p4, hp4⟩ := Option.isSome_iff_exists.mp hip
      simp [h, hp4]
  · simp only [hs, Bool.false_eq_true, if_false] at h ⊢
    unfold Scheduler.isIPv4 at h
    cases hp : ParseIP raw with
    | none => simp [hp] at h
    | some ip =>
      rw [hp] at h
      simp only at h
      obtain ⟨p4, hp4⟩ := Option.isSome_iff_exists.mp h
      simp [hp4]

/-! ## The text pushed after the IPv4 stage -/

theorem To4_some_shape (ip p4 : List Nat) (h : To4 ip = some p4) :
    p4.length = 4 ∧ (∀ x ∈ p4, x ∈ ip) ∧ ip.length ≠ 0 := by
  unfold To4 at h
  split at h
  · rename_i h4
    simp only [Option.some.injEq] at h
    subst h
    exact ⟨h4, fun x hx => hx, by omega⟩
  · split at h
    · rename_i h16
      simp only [Option.some.injEq] at h
      subst h
      refine ⟨by simp [h16.1], fun x hx => List.mem_of_mem_drop hx, by omega⟩
    · exact absurd h (by simp)

theorem IPString_of_To4 (ip p4 : List Nat) (h : To4 ip = some p4) :
    IPString ip = ⟨string4 p4⟩ := by
  have hs := To4_some_shape ip p4 h
  unfold IPString
  simp [hs.2.2, h]

theorem dottedText_of_bytes (p4 : List Nat) (hl : p4.length = 4) (hb : Bytes p4) :
    IsIPv4Literal ⟨string4 p4⟩ := by
  obtain ⟨a, b, c, d, rfl⟩ := list_of_length_four p4 hl
  exact ⟨a, b, c, d, hb a (by simp), hb b (by simp), hb c (by simp), hb d (by simp), rfl⟩

theorem ParseIP_bytes (raw : String) (ip : List Nat) (h : ParseIP raw = some ip) : Bytes ip := by
  unfold ParseIP at h
  split at h
  · exact absurd h (by simp)
  · rename_i addr hpa
    split at h
    · exact absurd h (by simp)
    · simp only [Option.some.injEq] at h
      subst h
      exact ParseAddr_bytes _ _ hpa

theorem Bytes.zipWith_land {ip : List Nat} (h : Bytes ip) (m : List Nat) :
    Bytes (List.zipWith (fun a b => a &&& b) ip m) := by
  induction ip generalizing m with
  | nil => intro x hx; simp at hx
  | cons a ip ih =>
    cases m with
    | nil => intro x hx; simp at hx
    | cons b m =>
      intro x hx
      simp only [List.zipWith_cons_cons, List.mem_cons] at hx
      rcases hx with h1 | h1
      · have ha : a < 256 := h a (by simp)
        have hle : a &&& b ≤ a := Nat.and_le_left
        omega
      · exact ih (fun y hy => h y (List.mem_cons_of_mem _ hy)) m x h1

theorem Mask_shape (ip m : List Nat) (hb : Bytes ip) :
    ∃ ip1 mask1, Bytes ip1 ∧
      Mask ip m = if ip1.length ≠ mask1.length then none
        else some (List.zipWith (fun a b => a &&& b) ip1 mask1) := by
  unfold Mask
  refine ⟨_, _, ?_, rfl⟩
  split <;> split <;> first | exact hb.drop 12 | exact hb

theorem Mask_bytes (ip m r : List Nat) (hb : Bytes ip) (h : Mask ip m = some r) : Bytes r := by
  obtain ⟨ip1, mask1, hb1, he⟩ := Mask_shape ip m hb
  rw [he] at h
  split at h
  · exact absurd h (by simp)
  · simp only [Option.some.injEq] at h
    subst h
    exact hb1.zipWith_land mask1

theorem cidrMaskLoop_drop (k l n : Nat) (h : 8 * k ≤ n) :
    (cidrMaskLoop (k + l) n).drop k = cidrMaskLoop l (n - 8 * k) := by
  induction k generalizing n with
  | zero => simp
  | succ k ih =>
    have hn : n ≥ 8 := by omega
    have e : k + 1 + l = (k + l) + 1 := by omega
    rw [e]
    simp only [cidrMaskLoop, hn, if_true, List.drop_succ_cons]
    rw [ih (n - 8) (by omega)]
    have e2 : n - 8 - 8 * k = n - 8 * (k + 1) := by omega
    rw [e2]

/-- A sixteen-byte mask leaves an IPv4 network only when it covers the first 96 bits. -/
theorem mask16_covers_of_To4 (ip : List Nat) (n : Nat)
    (h : (To4 ((Mask ip (cidrMaskLoop 16 n)).getD [])).isSome = true) : 96 ≤ n := by
  have hml : (cidrMaskLoop 16 n).length = 16 := cidrMaskLoop_length 16 n
  have hfull := cidrMaskLoop_getD_full 16 n 11
  have hle : ∀ x ∈ cidrMaskLoop 16 n, x ≤ 255 := cidrMaskLoop_le 16 n
  obtain ⟨m0, m1, m2, m3, m4, m5, m6, m7, m8, m9, m10, m11, m12, m13, m14, m15, hm⟩ :=
    list_of_length_sixteen _ hml
  rw [hm] at h hfull hle
  have key : m11 = 255 → 96 ≤ n := by
    intro e
    have := hfull (by simpa using e)
    omega
  by_cases h4 : ip.length = 4
  · by_cases hff : ((List.take 12
        [m0, m1, m2, m3, m4, m5, m6, m7, m8, m9, m10, m11, m12, m13, m14, m15]).all
        (fun b => decide (b = 255))) = true
    · apply key
      simp at hff
      exact hff.2.2.2.2.2.2.2.2.2.2.2
    · exfalso
      have hff2 : ¬ (m0 = 255 ∧ m1 = 255 ∧ m2 = 255 ∧ m3 = 255 ∧ m4 = 255 ∧ m5 = 255
          ∧ m6 = 255 ∧ m7 = 255 ∧ m8 = 255 ∧ m9 = 255 ∧ m10 = 255 ∧ m11 = 255) := by
        simpa using hff
      unfold Mask at h
      simp [h4, hff2, To4_nil] at h
  · by_cases h16 : ip.length = 16
    · obtain ⟨x0, x1, x2, x3, x4, x5, x6, x7, x8, x9, x10, x11, x12, x13, x14, x15, hx⟩ :=
        list_of_length_sixteen ip h16
      rw [Mask_same_length ip _ h4 (by simp), hx] at h
      simp [To4] at h
      apply key
      have h1 : x11 &&& m11 ≤ m11 := Nat.and_le_right
      have h2 : m11 ≤ 255 := hle m11 (by simp)
      have h3 := h.2.2
      omega
    · exfalso
      rw [Mask_same_length ip _ h4 (by simp)] at h
      simp [h16, To4_nil] at h

theorem To4_of_length_four (ip : List Nat) (h : ip.length = 4) : To4 ip = some ip := by
  simp [To4, h]

theorem ParseCIDR_network (raw : String) (ip : IP) (ipNet : IPNet)
    (h : ParseCIDR raw = some (ip, ipNet)) :
    Bytes ip ∧ ∃ L n, (L = 4 ∨ L = 16) ∧ n ≤ 8 * L
      ∧ ipNet = { IP := Mask ip (cidrMaskLoop L n), Mask := some (cidrMaskLoop L n) } := by
  unfold ParseCIDR at h
  by_cases hs : '/' ∈ raw.data
  · simp only [hs, if_true] at h
    cases hpa : ParseAddr ⟨raw.data.takeWhile (fun c => decide (c ≠ '/'))⟩ with
    | none =>
      rw [hpa] at h
      exact absurd h (by simp)
    | some ipAddr =>
      rw [hpa] at h
      simp only at h
      by_cases hz : ipAddr.Zone ≠ ""
      · rw [if_pos hz] at h
        exact absurd h (by simp)
      · rw [if_neg hz] at h
        rcases hd : dtoi ((raw.data.dropWhile (fun c => decide (c ≠ '/'))).drop 1)
          with ⟨n, i, ok⟩
        rw [hd] at h
        simp only at h
        by_cases hcond : (!ok) = true ∨
            i ≠ ((raw.data.dropWhile (fun c => decide (c ≠ '/'))).drop 1).length
            ∨ n > ipAddr.BitLen
        · rw [if_pos hcond] at h
          exact absurd h (by simp)
        · rw [if_neg hcond] at h
          simp only [Option.some.injEq, Prod.mk.injEq] at h
          obtain ⟨h1, h2⟩ := h
          subst h1 h2
          have hn : ¬ n > ipAddr.BitLen := fun hgt => hcond (Or.inr (Or.inr hgt))
          have hbits : ipAddr.BitLen = 32 ∨ ipAddr.BitLen = 128 := by
            cases ipAddr <;> simp [Addr.BitLen]
          refine ⟨ParseAddr_bytes _ _ hpa, ipAddr.BitLen / 8, n, ?_, ?_, ?_⟩
          · rcases hbits with hb | hb <;> rw [hb] <;> simp
          · rcases hbits with hb | hb <;> rw [hb] at hn ⊢ <;> omega
          · simp only [CIDRMask_of_le n _ hbits hn, Option.getD_some]
  · rw [if_neg hs] at h
    exact absurd h (by simp)

/-- The text of a network whose address is IPv4: dotted decimal, `/`, a length up to 32. -/
theorem IPNet_String_of_To4 (ip : List Nat) (L n : Nat) (hL : L = 4 ∨ L = 16) (hn : n ≤ 8 * L)
    (p4 : List Nat) (h : To4 ((Mask ip (cidrMaskLoop L n)).getD []) = some p4) :
    ∃ k, k ≤ 32 ∧
      IPNet.String { IP := Mask ip (cidrMaskLoop L n), Mask := some (cidrMaskLoop L n) }
        = ⟨string4 p4 ++ '/' :: (Nat.repr k).data⟩ := by
  have hp4 := (To4_some_shape _ _ h).1
  have hto := To4_of_length_four p4 hp4
  have hml : (cidrMaskLoop L n).length = L := cidrMaskLoop_length L n
  have hstr : IPString p4 = ⟨string4 p4⟩ := IPString_of_To4 p4 p4 hto
  rcases hL with hL | hL
  · subst hL
    refine ⟨n, by omega, ?_⟩
    have hl := simpleMaskLength_cidr4 n (by omega)
    simp [IPNet.String, networkNumberAndMask, h, hml, hp4, hl, hstr]
  · subst hL
    have h96 : 96 ≤ n := mask16_covers_of_To4 ip n (by simp [h])
    have hdrop : (cidrMaskLoop 16 n).drop 12 = cidrMaskLoop 4 (n - 96) := by
      have := cidrMaskLoop_drop 12 4 n (by omega)
      simpa using this
    refine ⟨n - 96, by omega, ?_⟩
    have hl := simpleMaskLength_cidr4 (n - 96) (by omega)
    simp [IPNet.String, networkNumberAndMask, h, hml, hp4, hdrop, hl, hstr]

/-- After the IPv4 stage only IPv4 text is pushed: every entry that stage keeps is pushed
as a bare IPv4 literal or as an IPv4 CIDR block. -/
theorem kept_entry_is_pushed_as_ipv4 (raw : String) (h : ipv4StageKeeps raw = true) :
    ∃ s, syncNormalizeEntry raw = some s ∧ (IsIPv4Literal s ∨ IsIPv4CIDR s) := by
  refine ⟨_, kept_entry_is_pushed raw h, ?_⟩
  unfold ipv4StageKeeps at h
  unfold specNormalize
  by_cases hs : containsSlash raw = true
  · simp only [hs, if_true] at h ⊢
    cases hp : ParseCIDR raw with
    | none => simp [hp] at h
    | some p =>
      rcases p with ⟨ip, ipNet⟩
      rw [hp] at h
      simp only at h ⊢
      rw [if_pos h]
      obtain ⟨hb, L, n, hL, hn, hnet⟩ := ParseCIDR_network raw ip ipNet hp
      subst hnet
      obtain ⟨p4, hp4⟩ := Option.isSome_iff_exists.mp h
      obtain ⟨k, hk, hstr⟩ := IPNet_String_of_To4 ip L n hL hn p4 hp4
      right
      simp only at hp4
      have hshape := To4_some_shape _ _ hp4
      have hbytes : Bytes p4 := by
        cases hM : Mask ip (cidrMaskLoop L n) with
        | none =>
          rw [hM] at hp4
          simp [To4_nil] at hp4
        | some r =>
          rw [hM] at hshape
          have hr := Mask_bytes ip _ r hb hM
          exact fun x hx => hr x (hshape.2.1 x hx)
      obtain ⟨a, b, c, d, rfl⟩ := list_of_length_four p4 hshape.1
      exact ⟨a, b, c, d, k, hbytes a (by simp), hbytes b (by simp), hbytes c (by simp),
        hbytes d (by simp), hk, hstr⟩
  · simp only [hs, Bool.false_eq_true, if_false] at h ⊢
    unfold Scheduler.isIPv4 at h
    cases hp : ParseIP raw with
    | none => simp [hp] at h
    | some ip =>
      rw [hp] at h
      simp only at h ⊢
      rw [if_pos h]
      obtain ⟨p4, hp4⟩ := Option.isSome_iff_exists.mp h
      left
      simp only
      rw [IPString_of_To4 ip p4 hp4]
      have hshape := To4_some_shape _ _ hp4
      have hb := ParseIP_bytes raw ip hp
      exact dottedText_of_bytes p4 hshape.1 (fun x hx => hb x (hshape.2.1 x hx))

/-! ## The extent of the departure from the contract -/

/-- The normalisation before the push follows the IP Normalizer contract on every entry
except a CIDR whose address is IPv4-mapped while its masked network is not. -/
theorem syncNormalizeEntry_eq_spec_or_corner (raw : String) :
    syncNormalizeEntry raw
        = (if (specNormalize raw).valid && (specNormalize raw).isIPv4
            then some (specNormalize raw).canonical else none)
    ∨ (containsSlash raw = true ∧ ∃ ip ipNet, ParseCIDR raw = some (ip, ipNet)
        ∧ (To4 ip).isSome = true ∧ (To4 (ipNet.IP.getD [])).isSome = false) := by
  by_cases hk : ipv4StageKeeps raw = true
  · left
    rw [kept_entry_is_pushed raw hk, ← ipv4StageKeeps_eq_spec, hk]
    rfl
  · rw [← ipv4StageKeeps_eq_spec]
    have hk0 : ipv4StageKeeps raw = false := by simpa using hk
    rw [hk0]
    unfold ipv4StageKeeps at hk0
    unfold syncNormalizeEntry FirewallClient.isValidIP
    by_cases hs : containsSlash raw = true
    · simp only [hs, if_true] at hk0 ⊢
      cases hp : ParseCIDR raw with
      | none => left; simp
      | some p =>
        rcases p with ⟨ip, ipNet⟩
        rw [hp] at hk0
        simp only at hk0
        by_cases h4 : (To4 ip).isSome = true
        · right
          exact ⟨trivial, ip, ipNet, rfl, h4, hk0⟩
        · left
          have h4n : (To4 ip).isNone = true := by
            cases hto : To4 ip with
            | none => rfl
            | some v => simp [hto] at h4
          simp [h4n]
    · left
      simp only [hs, Bool.false_eq_true, if_false] at hk0 ⊢
      unfold Scheduler.isIPv4 at hk0
      cases hp : ParseIP raw with
      | none => simp
      | some ip =>
        rw [hp] at hk0
        simp only at hk0
        have h4n : (To4 ip).isNone = true := by
          cases hto : To4 ip with
          | none => rfl
          | some v => simp [hto] at hk0
        simp [h4n]

theorem dot_mem_string4 (b : List Nat) : '.' ∈ string4 b := by
  simp [string4]

theorem not_IsIPv4Literal_of_no_dot (s : String) (h : '.' ∉ s.data) : ¬ IsIPv4Literal s := by
  rintro ⟨a, b, c, d, _, _, _, _, hs⟩
  apply h
  rw [hs]
  exact dot_mem_string4 _

theorem not_IsIPv4CIDR_of_no_dot (s : String) (h : '.' ∉ s.data) : ¬ IsIPv4CIDR s := by
  rintro ⟨a, b, c, d, n, _, _, _, _, _, hs⟩
  apply h
  rw [hs]
  exact List.mem_append_left _ (dot_mem_string4 _)

theorem ipv4StageKeeps_dotted (a b c d : Nat) (ha : a < 256) (hb : b < 256) (hc : c < 256)
    (hd : d < 256) : ipv4StageKeeps (dottedText a b c d) = true := by
  unfold ipv4StageKeeps dottedText
  rw [containsSlash_string4 a b c d ha hb hc hd]
  simpa using isIPv4_string4 a b c d ha hb hc hd

theorem ipv4StageKeeps_cidr (a b c d n : Nat) (ha : a < 256) (hb : b < 256) (hc : c < 256)
    (hd : d < 256) (hn : n ≤ 32) : ipv4StageKeeps (cidrText a b c d n) = true := by
  obtain ⟨m0, m1, m2, m3, hm⟩ := list_of_length_four _ (cidrMaskLoop_length 4 n)
  unfold ipv4StageKeeps cidrText
  rw [containsSlash_cidr, ParseCIDR_cidr4 a b c d n ha hb hc hd hn, hm]
  simp [To4_four]

/-! ## Create or replace -/

/-- The request by which `GetAddressBookByName` lists the address books. -/
theorem GetAddressBookByName_recording {ρ : Type} (fw : CloudFW ρ) (groupName : String)
    (r : ρ) (log : List ApiCall) :
    FirewallClient.GetAddressBookByName (recording fw) groupName (r, log)
      = ((FirewallClient.GetAddressBookByName fw groupName r).1,
          ((FirewallClient.GetAddressBookByName fw groupName r).2,
            log ++ [ApiCall.describe
              { PageSize := "50", CurrentPage := "1", Lang := "zh", GroupType := "ip" }])) := by
  unfold FirewallClient.GetAddressBookByName
  simp only [recording]
  rcases h : fw.DescribeAddressBook
      { PageSize := "50", CurrentPage := "1", Lang := "zh", GroupType := "ip" } r with ⟨res, r1⟩
  cases res with
  | error e => rfl
  | ok body =>
    cases body with
    | none => rfl
    | some b =>
      simp only
      split
      · rfl
      · cases findAcl groupName b.Acls <;> rfl

theorem findGroup_eq_none_iff (groupName : String) (groups : List AddressGroup) :
    findGroup groupName groups = none ↔ ∀ g ∈ groups, g.GroupName ≠ groupName := by
  induction groups with
  | nil => simp [findGroup]
  | cons g rest ih =>
    simp only [findGroup, List.mem_cons, forall_eq_or_imp]
    by_cases h : g.GroupName = groupName
    · simp [h]
    · simp [h, ih]

/-- The configuration lookup of `SyncAddressBook` returns the first group of that name. -/
theorem findGroup_eq_some (groupName : String) (groups : List AddressGroup) (g : AddressGroup)
    (h : findGroup groupName groups = some g) :
    ∃ pre post, groups = pre ++ g :: post ∧ g.GroupName = groupName
      ∧ ∀ g0 ∈ pre, g0.GroupName ≠ groupName := by
  induction groups with
  | nil => simp [findGroup] at h
  | cons g1 rest ih =>
    simp only [findGroup] at h
    by_cases h1 : g1.GroupName = groupName
    · rw [if_pos h1] at h
      simp only [Option.some.injEq] at h
      subst h
      exact ⟨[], rest, rfl, h1, by simp⟩
    · rw [if_neg h1] at h
      obtain ⟨pre, post, he, hn, hpre⟩ := ih h
      refine ⟨g1 :: pre, post, by simp [he], hn, ?_⟩
      intro g0 hg0
      rcases List.mem_cons.mp hg0 with e | e
      · rw [e]; exact h1
      · exact hpre g0 e

/-! ## The pass over the remote model -/

theorem uuidOf_injective (i j : Nat) (h : uuidOf i = uuidOf j) : i = j := by
  unfold uuidOf at h
  have h1 := congrArg (fun s : String => s.data.length) h
  simp only [List.length_replicate] at h1
  omega

theorem overwriteFrom_of_lt (k j : Nat) (addressList : String) (books : List Book)
    (h : j < k) : overwriteFrom k (uuidOf j) addressList books = books := by
  induction books generalizing k with
  | nil => rfl
  | cons b rest ih =>
    have hne : ¬ uuidOf k = uuidOf j := fun e => by
      have := uuidOf_injective k j e
      omega
    simp only [overwriteFrom, hne, if_false, ih (k + 1) (by omega)]

theorem upsert_of_absent (name description addressList : String) (books : List Book)
    (h : ∀ b ∈ books, b.name ≠ name) :
    upsert name description addressList books
      = books ++ [{ name := name, description := description, addressList := addressList }] := by
  induction books with
  | nil => rfl
  | cons b rest ih =>
    have hb : b.name ≠ name := h b (List.mem_cons_self _ _)
    simp only [upsert, hb, if_false, List.cons_append,
      ih (fun b0 hb0 => h b0 (List.mem_cons_of_mem _ hb0))]

theorem findAcl_listingFrom_absent (name : String) (i : Nat) (books : List Book)
    (h : ∀ b ∈ books, b.name ≠ name) : findAcl name (listingFrom i books) = none := by
  induction books generalizing i with
  | nil => rfl
  | cons b rest ih =>
    have hb : b.name ≠ name := h b (List.mem_cons_self _ _)
    simp only [listingFrom, findAcl, StringValue, Option.getD_some, hb, if_false]
    exact ih (i + 1) (fun b0 hb0 => h b0 (List.mem_cons_of_mem _ hb0))

/-- The lookup over the listing of the remote model finds the first book of the name,
and overwriting the book with its identifier is the write by name. -/
theorem findAcl_listingFrom_present (name description addressList : String) (i : Nat)
    (books : List Book) (h : ∃ b ∈ books, b.name = name) :
    ∃ acl j, findAcl name (listingFrom i books) = some acl
      ∧ acl.GroupUuid = some (uuidOf j) ∧ i ≤ j
      ∧ overwriteFrom i (uuidOf j) addressList books
          = upsert name description addressList books := by
  induction books generalizing i with
  | nil =>
    obtain ⟨b, hb, _⟩ := h
    simp at hb
  | cons b rest ih =>
    by_cases hb : b.name = name
    · refine ⟨⟨some (uuidOf i), some b.name, some b.description,
          (splitCommas b.addressList.data []).map some⟩, i, ?_, rfl, le_refl i, ?_⟩
      · simp only [listingFrom, findAcl, StringValue, Option.getD_some, hb, if_true]
      · simp only [overwriteFrom, upsert, hb, if_true,
          overwriteFrom_of_lt (i + 1) i addressList rest (by omega)]
    · have hrest : ∃ b0 ∈ rest, b0.name = name := by
        obtain ⟨b0, hb0, hn0⟩ := h
        rcases List.mem_cons.mp hb0 with e | e
        · rw [e] at hn0
          exact absurd hn0 hb
        · exact ⟨b0, e, hn0⟩
      obtain ⟨acl, j, hf, hu, hij, ho⟩ := ih (i + 1) hrest
      refine ⟨acl, j, ?_, hu, by omega, ?_⟩
      · simp only [listingFrom, findAcl, StringValue, Option.getD_some, hb, if_false]
        exact hf
      · have hne : ¬ uuidOf i = uuidOf j := fun e => by
          have := uuidOf_injective i j e
          omega
        simp only [overwriteFrom, upsert, hb, hne, if_false, ho]

theorem listingFrom_length (i : Nat) (books : List Book) :
    (listingFrom i books).length = books.length := by
  induction books generalizing i with
  | nil => rfl
  | cons b rest ih => simp [listingFrom, ih]

/-- Over the remote model `SyncAddressBook` never fails for a configured group and is
the write by name of the joined normalised list. -/
theorem SyncAddressBook_memoryRemote (sync : SyncConfig) (groupName : String)
    (sourceIPs : List DCDNSourceIPInfo) (books : List Book) (g : AddressGroup)
    (hg : findGroup groupName sync.AddressGroups = some g) :
    FirewallClient.SyncAddressBook sync memoryRemote groupName sourceIPs books
      = (none, upsert groupName g.Description
          (String.intercalate "," (syncNewIPs sourceIPs)) books) := by
  unfold FirewallClient.SyncAddressBook FirewallClient.GetAddressBookByName
  simp only [memoryRemote, listingFrom_length]
  by_cases hex : ∃ b ∈ books, b.name = groupName
  · obtain ⟨acl, j, hf, hu, _, ho⟩ := findAcl_listingFrom_present groupName g.Description
      (String.intercalate "," (syncNewIPs sourceIPs)) 0 books hex
    have hlen : ¬ books.length = 0 := by
      obtain ⟨b, hb, _⟩ := hex
      intro h0
      rw [List.length_eq_zero] at h0
      rw [h0] at hb
      simp at hb
    simp only [hlen, if_false, hf, hg, StringValue, hu, Option.getD_some, ho]
  · have habs : ∀ b ∈ books, b.name ≠ groupName := fun b hb hn => hex ⟨b, hb, hn⟩
    have hf := findAcl_listingFrom_absent groupName 0 books habs
    have hup := upsert_of_absent groupName g.Description
      (String.intercalate "," (syncNewIPs sourceIPs)) books habs
    by_cases hlen : books.length = 0
    · simp only [hlen, if_true, hg, hup]
    · simp only [hlen, if_false, hf, hg, hup]

theorem finalList_idem (name : String) (ops : List (String × String × String))
    (cur cur2 : String) :
    finalList name ops (finalList name ops cur) = finalList name ops cur
    ∧ ((∃ o ∈ ops, o.1 = name) → finalList name ops cur = finalList name ops cur2) := by
  induction ops using List.reverseRecOn generalizing cur cur2 with
  | nil => simp [finalList]
  | append_singleton ops o ih =>
    simp only [finalList, List.foldl_append, List.foldl_cons, List.foldl_nil]
    by_cases ho : o.1 = name
    · simp [ho]
    · simp only [ho, if_false]
      constructor
      · exact (ih cur cur2).1
      · rintro ⟨o1, ho1, hn1⟩
        rcases List.mem_append.mp ho1 with e | e
        · exact (ih cur cur2).2 ⟨o1, e, hn1⟩
        · simp only [List.mem_singleton] at e
          rw [e] at hn1
          exact absurd hn1 ho

/-- Writes on a store with a first book: the book ends with the list of the last write
to its name, and the rest of the store sees the writes to the other names. -/
theorem runWrites_cons (ops : List (String × String × String)) (b : Book) (rest : List Book) :
    runWrites ops (b :: rest)
      = { b with addressList := finalList b.name ops b.addressList }
          :: runWrites (ops.filter (fun o => decide (o.1 ≠ b.name))) rest := by
  induction ops generalizing b rest with
  | nil => rfl
  | cons o ops ih =>
    simp only [runWrites, List.foldl_cons, finalList] at ih ⊢
    by_cases ho : b.name = o.1
    · have ho2 : o.1 = b.name := ho.symm
      simp only [upsert, ho, if_true]
      rw [ih]
      simp [List.filter_cons, ho]
    · have ho2 : ¬ o.1 = b.name := fun e => ho e.symm
      simp only [upsert, ho, if_false]
      rw [ih]
      simp [List.filter_cons, ho2, ho]

theorem runWrites_nil_idem (n : Nat) :
    ∀ ops : List (String × String × String), ops.length ≤ n →
      runWrites ops (runWrites ops []) = runWrites ops [] := by
  induction n with
  | zero =>
    intro ops h
    have : ops = [] := List.length_eq_zero.mp (by omega)
    subst this
    rfl
  | succ n ih =>
    intro ops h
    cases ops with
    | nil => rfl
    | cons o ops =>
      have hstep : runWrites (o :: ops) [] = runWrites ops [⟨o.1, o.2.1, o.2.2⟩] := rfl
      rw [hstep, runWrites_cons]
      simp only
      have hfl : (List.filter (fun o1 : String × String × String => decide (o1.1 ≠ o.1)) ops).length
          ≤ n := by
        have := List.length_filter_le (fun o1 : String × String × String => decide (o1.1 ≠ o.1)) ops
        simp only [List.length_cons] at h
        omega
      rw [runWrites_cons]
      simp only
      have hf : List.filter (fun o1 : String × String × String => decide (o1.1 ≠ o.1)) (o :: ops)
          = List.filter (fun o1 : String × String × String => decide (o1.1 ≠ o.1)) ops := by
        simp [List.filter_cons]
      rw [hf, ih _ hfl]
      congr 1
      have h1 : finalList o.1 (o :: ops) (finalList o.1 ops o.2.2) = finalList o.1 ops o.2.2 := by
        simp [finalList]
      rw [h1]

/-- Applying a sequence of writes by name a second time changes nothing. -/
theorem runWrites_idem (ops : List (String × String × String)) (books : List Book) :
    runWrites ops (runWrites ops books) = runWrites ops books := by
  induction books generalizing ops with
  | nil => exact runWrites_nil_idem ops.length ops (le_refl _)
  | cons b rest ih =>
    rw [runWrites_cons, runWrites_cons]
    simp only
    rw [ih, (finalList_idem b.name ops b.addressList b.addressList).1]

theorem findGroup_isSome_of_mem (groups : List AddressGroup) (g : AddressGroup) (h : g ∈ groups) :
    ∃ g0, findGroup g.GroupName groups = some g0 := by
  cases hf : findGroup g.GroupName groups with
  | some g0 => exact ⟨g0, rfl⟩
  | none => exact absurd rfl ((findGroup_eq_none_iff g.GroupName groups).mp hf g h)

theorem syncGroupsLoop_memory_world (sync : SyncConfig)
    (fetched : Except String (List DCDNSourceIPInfo)) (ipv4IPs : List DCDNSourceIPInfo)
    (groups : List AddressGroup) (hg : ∀ g ∈ groups, g ∈ sync.AddressGroups)
    (task : SyncTask) (calls : List Call) (books : List Book) :
    (syncGroupsLoop (memoryClients sync fetched) ipv4IPs groups task calls books).2.2
      = runWrites (writesOf sync ipv4IPs groups) books := by
  induction groups generalizing task calls books with
  | nil => rfl
  | cons g rest ih =>
    obtain ⟨g0, hg0⟩ := findGroup_isSome_of_mem sync.AddressGroups g (hg g (List.mem_cons_self _ _))
    have hstep := SyncAddressBook_memoryRemote sync g.GroupName
      (Scheduler.filterSourceIPs ipv4IPs g) books g0 hg0
    have hrest : ∀ g1 ∈ rest, g1 ∈ sync.AddressGroups :=
      fun g1 h1 => hg g1 (List.mem_cons_of_mem _ h1)
    simp only [syncGroupsLoop, memoryClients, hstep]
    have := ih hrest
    simp only [memoryClients] at this
    rw [this]
    simp [writesOf, runWrites, hg0]

theorem executeSyncTask_memory_world (config : SyncConfig)
    (fetched : Except String (List DCDNSourceIPInfo)) (startTime endTime : Nat)
    (books : List Book) :
    (Scheduler.executeSyncTask config (memoryClients config fetched) startTime endTime books).world
      = match fetched with
        | .error _ => books
        | .ok sourceIPs =>
          runWrites (writesOf config (Scheduler.filterIPv4Addresses sourceIPs)
            config.AddressGroups) books := by
  cases fetched with
  | error e => rfl
  | ok sourceIPs =>
    have h := syncGroupsLoop_memory_world config (.ok sourceIPs)
      (Scheduler.filterIPv4Addresses sourceIPs) config.AddressGroups (fun _ h => h)
    unfold Scheduler.executeSyncTask
    simp only [memoryClients] at h ⊢
    rw [← h]

/-! ## The lookup by name -/

theorem findAcl_name (groupName : String)
    (acls : List (Option DescribeAddressBookResponseBodyAcls))
    (acl : DescribeAddressBookResponseBodyAcls) (h : findAcl groupName acls = some acl) :
    StringValue acl.GroupName = groupName := by
  induction acls with
  | nil => simp [findAcl] at h
  | cons a rest ih =>
    cases a with
    | none => exact ih (by simpa [findAcl] using h)
    | some a0 =>
      simp only [findAcl] at h
      by_cases hn : StringValue a0.GroupName = groupName
      · rw [if_pos hn] at h
        simp only [Option.some.injEq] at h
        rw [← h]
        exact hn
      · rw [if_neg hn] at h
        exact ih h

theorem GetAddressBookByName_exact_name {ρ : Type} (fw : CloudFW ρ) (groupName : String)
    (r : ρ) (book : FirewallAddressBook)
    (h : (FirewallClient.GetAddressBookByName fw groupName r).1 = .ok (some book)) :
    book.GroupName = groupName := by
  unfold FirewallClient.GetAddressBookByName at h
  rcases hd : fw.DescribeAddressBook
      { PageSize := "50", CurrentPage := "1", Lang := "zh", GroupType := "ip" } r with ⟨res, r1⟩
  simp only [hd] at h
  cases res with
  | error e => simp at h
  | ok body =>
    cases body with
    | none => simp at h
    | some b =>
      simp only at h
      split at h
      · simp at h
      · cases hf : findAcl groupName b.Acls with
        | none => simp [hf] at h
        | some acl =>
          simp only [hf, Except.ok.injEq, Option.some.injEq] at h
          rw [← h]
          exact findAcl_name groupName b.Acls acl hf

/-! ## The one-shot pass against the scheduled pass -/

theorem validateConfig_eq_none_iff (config : Config) :
    validateConfig config = none ↔ config.Sync.AddressGroups ≠ [] := by
  unfold validateConfig
  cases config.Sync.AddressGroups <;> simp

theorem findGroup_of_nodup (groups : List AddressGroup)
    (hn : (groups.map (fun g => g.GroupName)).Nodup) (g : AddressGroup) (hg : g ∈ groups) :
    findGroup g.GroupName groups = some g := by
  induction groups with
  | nil => simp at hg
  | cons g1 rest ih =>
    simp only [List.map_cons, List.nodup_cons, List.mem_map, not_exists, not_and] at hn
    simp only [findGroup]
    rcases List.mem_cons.mp hg with e | e
    · rw [e]
      simp
    · have hne : ¬ g1.GroupName = g.GroupName := fun h1 => hn.1 g e h1.symm
      rw [if_neg hne]
      exact ih hn.2 e

/-! ## The claims -/

/-- C2: when the fetch returns an error, the pass makes no `SyncAddressBook` call,
ends with status `failed` and a non-empty error message, leaves `addedIPs` empty and
returns an error to its caller. -/
theorem C2_fetch_failure_is_fatal (σ : Type) (config : SyncConfig) (c : Clients σ)
    (startTime endTime : Nat) (w : σ) (e : String)
    (h : (c.GetL2IPList w).1 = .error e) :
    (Scheduler.executeSyncTask config c startTime endTime w).calls = [Call.fetch]
    ∧ (∀ name ips, Call.sync name ips
        ∉ (Scheduler.executeSyncTask config c startTime endTime w).calls)
    ∧ (Scheduler.executeSyncTask config c startTime endTime w).task.Status = "failed"
    ∧ (Scheduler.executeSyncTask config c startTime endTime w).task.ErrorMsg ≠ ""
    ∧ (Scheduler.executeSyncTask config c startTime endTime w).task.AddedIPs = []
    ∧ (Scheduler.executeSyncTask config c startTime endTime w).err
        = some (Scheduler.executeSyncTask config c startTime endTime w).task.ErrorMsg := by
  rw [executeSyncTask_error config c startTime endTime w e h]
  refine ⟨rfl, ?_, rfl, ?_, rfl, rfl⟩
  · intro name ips hmem
    simp at hmem
  · exact append_ne_empty _ _ (by decide)

/-- A pass over the scenario groups whose fetch fails with `timeout`. -/
theorem C2_fetch_failure_is_fatal_witness :
    (Scheduler.executeSyncTask ⟨scenarioGroups "ipv4" "ipv4"⟩
        (fixedClients (.error "timeout") []) 0 1 ()).calls = [Call.fetch]
    ∧ (Scheduler.executeSyncTask ⟨scenarioGroups "ipv4" "ipv4"⟩
        (fixedClients (.error "timeout") []) 0 1 ()).task.Status = "failed" :=
  ⟨(C2_fetch_failure_is_fatal Unit ⟨scenarioGroups "ipv4" "ipv4"⟩
      (fixedClients (.error "timeout") []) 0 1 () "timeout" rfl).1,
   (C2_fetch_failure_is_fatal Unit ⟨scenarioGroups "ipv4" "ipv4"⟩
      (fixedClients (.error "timeout") []) 0 1 () "timeout" rfl).2.2.1⟩

/-- C4: both address-group filters return exactly the input records, in input order,
whose IP matches no exclude pattern and (the include list is empty or some include
pattern matches), each over its own matcher; so an excluded record never survives, the
output is a sub-list of the input, both lists empty give the input back, and for
include `*`, exclude `10.*` the input `10.1.1.1, 8.8.8.8` gives `8.8.8.8`. -/
theorem C4_address_group_filter :
    (∀ (ips : List DCDNSourceIPInfo) (group : AddressGroup),
        Scheduler.filterSourceIPs ips group
            = ips.filter (fun ip =>
                !(group.ExcludePatterns.any (fun p => matchIPPattern ip.IP p))
                && (group.IncludePatterns.isEmpty
                    || group.IncludePatterns.any (fun p => matchIPPattern ip.IP p)))
        ∧ (∀ ip ∈ Scheduler.filterSourceIPs ips group,
            ∀ p ∈ group.ExcludePatterns, matchIPPattern ip.IP p = false)
        ∧ List.Sublist (Scheduler.filterSourceIPs ips group) ips
        ∧ (group.IncludePatterns = [] → group.ExcludePatterns = [] →
            Scheduler.filterSourceIPs ips group = ips))
    ∧ (∀ (ips : List DCDNSourceIPInfo) (incl excl : List String),
        filterSourceIPs ips incl excl
            = ips.filter (fun ip =>
                !(excl.any (fun p => matchPattern ip.IP p))
                && (incl.isEmpty || incl.any (fun p => matchPattern ip.IP p)))
        ∧ (∀ ip ∈ filterSourceIPs ips incl excl, ∀ p ∈ excl, matchPattern ip.IP p = false)
        ∧ List.Sublist (filterSourceIPs ips incl excl) ips
        ∧ (incl = [] → excl = [] → filterSourceIPs ips incl excl = ips))
    ∧ Scheduler.filterSourceIPs [sourceRecord "10.1.1.1", sourceRecord "8.8.8.8"]
          { GroupName := "g", Description := "", IPType := "ipv4",
            IncludePatterns := ["*"], ExcludePatterns := ["10.*"] }
        = [sourceRecord "8.8.8.8"]
    ∧ filterSourceIPs [sourceRecord "10.1.1.1", sourceRecord "8.8.8.8"] ["*"] ["10.*"]
        = [sourceRecord "8.8.8.8"] := by
  refine ⟨?_, ?_, by decide, by decide⟩
  · intro ips group
    have heq := scheduler_filter_eq ips group
    refine ⟨heq, ?_, ?_, ?_⟩
    · intro ip hip p hp
      rw [heq, List.mem_filter] at hip
      have hk := hip.2
      simp only [specKeeps, Bool.and_eq_true, Bool.not_eq_true', List.any_eq_false] at hk
      simpa using hk.1 p hp
    · rw [heq]
      exact List.filter_sublist _
    · intro hi he
      rw [heq, hi, he]
      exact List.filter_eq_self.mpr (fun a _ => specKeeps_nil _ a)
  · intro ips incl excl
    have heq := main_filter_eq ips incl excl
    refine ⟨heq, ?_, ?_, ?_⟩
    · intro ip hip p hp
      rw [heq, List.mem_filter] at hip
      have hk := hip.2
      simp only [specKeeps, Bool.and_eq_true, Bool.not_eq_true', List.any_eq_false] at hk
      simpa using hk.1 p hp
    · rw [heq]
      exact List.filter_sublist _
    · intro hi he
      rw [heq, hi, he]
      exact List.filter_eq_self.mpr (fun a _ => specKeeps_nil _ a)

/-- The scheduler filter without any pattern, on the scenario source. -/
theorem C4_address_group_filter_witness :
    Scheduler.filterSourceIPs scenarioSource
        { GroupName := "g", Description := "", IPType := "ipv4",
          IncludePatterns := [], ExcludePatterns := [] }
      = scenarioSource :=
  (C4_address_group_filter.1 scenarioSource
      { GroupName := "g", Description := "", IPType := "ipv4",
        IncludePatterns := [], ExcludePatterns := [] }).2.2.2 rfl rfl

/-- C5, evaluated at the failing input: for the single entry `::ffff:1.2.3.4/64` the
client sends a create request, or a replace request when the book exists, whose address
list is `::/64`, which is neither a bare IPv4 literal nor an IPv4 CIDR block, although
the IPv4 stage of the scheduler drops the same entry. -/
theorem C5_push_of_ipv6_network :
    FirewallClient.SyncAddressBook
        ⟨[{ GroupName := "g", Description := "d", IPType := "ipv4",
            IncludePatterns := [], ExcludePatterns := [] }]⟩
        (recording emptyRemote) "g" [sourceRecord "::ffff:1.2.3.4/64"] ((), [])
      = (none, ((), [ApiCall.describe
            { PageSize := "50", CurrentPage := "1", Lang := "zh", GroupType := "ip" },
          ApiCall.add
            { Description := "d", GroupName := "g", AddressList := "::/64",
              AutoAddTagEcs := "false", TagRelation := "and", GroupType := "ip",
              Lang := "zh" }]))
    ∧ FirewallClient.SyncAddressBook
        ⟨[{ GroupName := "g", Description := "d", IPType := "ipv4",
            IncludePatterns := [], ExcludePatterns := [] }]⟩
        (recording (singleBookRemote "g" "uuid-1")) "g" [sourceRecord "::ffff:1.2.3.4/64"]
        ((), [])
      = (none, ((), [ApiCall.describe
            { PageSize := "50", CurrentPage := "1", Lang := "zh", GroupType := "ip" },
          ApiCall.modify
            { GroupUuid := "uuid-1", GroupName := "g", Description := "d",
              AddressList := "::/64" }]))
    ∧ ¬ IsIPv4Literal "::/64"
    ∧ ¬ IsIPv4CIDR "::/64"
    ∧ Scheduler.filterIPv4Addresses [sourceRecord "::ffff:1.2.3.4/64"] = [] := by
  refine ⟨by decide, by decide, not_IsIPv4Literal_of_no_dot _ (by decide),
    not_IsIPv4CIDR_of_no_dot _ (by decide), by decide⟩

/-- C6, evaluated at the failing input: the IP Normalizer contract makes
`::ffff:1.2.3.4/64` a valid entry that is not IPv4 (its network `::` is not
representable as IPv4), to be dropped, but the normalisation before the push turns it
into `::/64`; the entries named by the claim are treated as it says. -/
theorem C6_normalization_keeps_ipv6_network :
    specNormalize "::ffff:1.2.3.4/64" = { canonical := "", isIPv4 := false, valid := true }
    ∧ syncNewIPs [sourceRecord "::ffff:1.2.3.4/64"] = ["::/64"]
    ∧ syncNewIPs [sourceRecord "10.0.0.1/24", sourceRecord "::1", sourceRecord "not-an-ip",
        sourceRecord "8.8.8.8"] = ["10.0.0.0/24", "8.8.8.8"] := by
  decide

/-- C7, as stated, fails: the IPv4 stage keeps `10.0.0.1/24` and emits that very text,
while `SyncAddressBook` pushes `10.0.0.0/24` for it. -/
theorem C7_call_sites_disagree :
    (Scheduler.filterIPv4Addresses [sourceRecord "10.0.0.1/24"]).map (fun i => i.IP)
      = ["10.0.0.1/24"]
    ∧ syncNewIPs (Scheduler.filterIPv4Addresses [sourceRecord "10.0.0.1/24"]) = ["10.0.0.0/24"]
    ∧ ("10.0.0.1/24" : String) ≠ "10.0.0.0/24" := by
  decide

/-- C7, amended: the IPv4 stage emits every kept entry unchanged, in input order; it
keeps exactly the entries that the IP Normalizer contract makes valid and IPv4; and
`SyncAddressBook` pushes, for every entry that stage keeps, the canonical form of the
contract (it never skips one); the two strings are equal for every
dotted-decimal IPv4 literal and for every dotted-decimal CIDR `a.b.c.d/n` with `n ≤ 32`
whose host bits are zero, any other CIDR `a.b.c.d/n` being pushed as its network address
followed by `/n`. -/
theorem C7_call_sites_agree_on_canonical_text :
    (∀ src : List DCDNSourceIPInfo,
        Scheduler.filterIPv4Addresses src = src.filter (fun i => ipv4StageKeeps i.IP))
    ∧ (∀ src : List DCDNSourceIPInfo,
        syncNewIPs src = src.filterMap (fun i => syncNormalizeEntry i.IP))
    ∧ (∀ raw : String,
        ipv4StageKeeps raw = ((specNormalize raw).valid && (specNormalize raw).isIPv4))
    ∧ (∀ raw : String, ipv4StageKeeps raw = true →
        syncNormalizeEntry raw = some (specNormalize raw).canonical)
    ∧ (∀ a b c d : Nat, a < 256 → b < 256 → c < 256 → d < 256 →
        ipv4StageKeeps (dottedText a b c d) = true
        ∧ syncNormalizeEntry (dottedText a b c d) = some (dottedText a b c d))
    ∧ (∀ a b c d n : Nat, a < 256 → b < 256 → c < 256 → d < 256 → n ≤ 32 →
        ipv4StageKeeps (cidrText a b c d n) = true
        ∧ syncNormalizeEntry (cidrText a b c d n)
            = some ⟨string4 (networkBytes a b c d n) ++ '/' :: (Nat.repr n).data⟩
        ∧ (networkBytes a b c d n = [a, b, c, d] →
            syncNormalizeEntry (cidrText a b c d n) = some (cidrText a b c d n))) := by
  refine ⟨filterIPv4Addresses_eq_filter, syncNewIPs_eq_filterMap, ipv4StageKeeps_eq_spec,
    kept_entry_is_pushed, ?_, ?_⟩
  · intro a b c d ha hb hc hd
    exact ⟨ipv4StageKeeps_dotted a b c d ha hb hc hd,
      syncNormalizeEntry_string4 a b c d ha hb hc hd⟩
  · intro a b c d n ha hb hc hd hn
    have hpush := syncNormalizeEntry_cidr4 a b c d n ha hb hc hd hn
    refine ⟨ipv4StageKeeps_cidr a b c d n ha hb hc hd hn, hpush, ?_⟩
    intro hnet
    unfold networkBytes at hnet
    unfold cidrText
    rw [hpush, hnet]

/-- The entry `10.0.0.0/24`, whose host bits are zero, is kept by the IPv4 stage and
pushed unchanged. -/
theorem C7_call_sites_agree_on_canonical_text_witness :
    ipv4StageKeeps (cidrText 10 0 0 0 24) = true
    ∧ syncNormalizeEntry (cidrText 10 0 0 0 24) = some (cidrText 10 0 0 0 24)
    ∧ cidrText 10 0 0 0 24 = "10.0.0.0/24" :=
  ⟨(C7_call_sites_agree_on_canonical_text.2.2.2.2.2 10 0 0 0 24 (by decide) (by decide)
      (by decide) (by decide) (by decide)).1,
   (C7_call_sites_agree_on_canonical_text.2.2.2.2.2 10 0 0 0 24 (by decide) (by decide)
      (by decide) (by decide) (by decide)).2.2 (by decide),
   by decide⟩

/-- C8: `matchPattern` of `cmd/main.go` equals the Pattern Matcher contract, rules taken
in order (`*`; empty pattern; leading `*` as suffix match; trailing `*` as match of the
beginning; else equality), with the five examples of the specification. -/
theorem C8_matchPattern_contract :
    (∀ text pattern : String, matchPattern text pattern = specMatch text pattern)
    ∧ (∀ text pattern : String, matchPattern text pattern = true ↔
        (pattern = "*"
          ∨ (pattern ≠ "*" ∧ pattern = "" ∧ text = "")
          ∨ (pattern ≠ "*" ∧ pattern ≠ "" ∧ pattern.data.head? = some '*'
              ∧ pattern.data.tail <:+ text.data)
          ∨ (pattern ≠ "*" ∧ pattern ≠ "" ∧ pattern.data.head? ≠ some '*'
              ∧ pattern.data.getLast? = some '*' ∧ pattern.data.dropLast <+: text.data)
          ∨ (pattern ≠ "*" ∧ pattern ≠ "" ∧ pattern.data.head? ≠ some '*'
              ∧ pattern.data.getLast? ≠ some '*' ∧ text = pattern)))
    ∧ matchPattern "1.2.3.4" "*" = true
    ∧ matchPattern "1.2.3.4" "1.2.*" = true
    ∧ matchPattern "1.2.3.4" "*.3.4" = true
    ∧ matchPattern "" "" = true
    ∧ matchPattern "1.2.3.4" "9.9.9.9" = false := by
  refine ⟨matchPattern_eq_specMatch, ?_, by decide, by decide, by decide, by decide, by decide⟩
  intro text pattern
  rw [matchPattern_eq_specMatch]
  unfold specMatch
  by_cases h1 : pattern = "*"
  · simp [h1]
  · by_cases h2 : pattern = ""
    · simp [h1, h2]
    · by_cases h3 : pattern.data.head? = some '*'
      · simp [h1, h2, h3]
      · by_cases h4 : pattern.data.getLast? = some '*'
        · simp [h1, h2, h3, h4]
        · simp [h1, h2, h3, h4]

/-- C9, as stated, fails: the pattern `*.3.4` starts with `*` and the text `1.2.3.4`
ends with `.3.4`, yet `Scheduler.matchIPPattern` answers false. -/
theorem C9_matchIPPattern_no_suffix_match :
    "*.3.4".data.head? = some '*'
    ∧ "*.3.4".data.tail <:+ "1.2.3.4".data
    ∧ matchIPPattern "1.2.3.4" "*.3.4" = false := by
  decide

/-- C9, amended: `Scheduler.matchIPPattern` answers true iff the pattern is `*`, or
equals the text, or ends with `*` and the text starts with the pattern minus that
trailing `*`; a leading `*` is an ordinary character, so `*.3.4` does not match
`1.2.3.4` while `1.2.*` does. -/
theorem C9_matchIPPattern_contract :
    (∀ ip pattern : String, matchIPPattern ip pattern = true ↔
        (pattern = "*" ∨ pattern = ip
          ∨ (pattern.data.getLast? = some '*' ∧ pattern.data.dropLast <+: ip.data)))
    ∧ matchIPPattern "1.2.3.4" "*.3.4" = false
    ∧ matchIPPattern "1.2.3.4" "1.2.*" = true
    ∧ matchIPPattern "1.2.3.4" "*" = true := by
  exact ⟨matchIPPattern_iff, by decide, by decide, by decide⟩

/-- C10: when the fetch succeeds, the final `addedIPs` is the de-duplication of the
concatenation, in configuration order, of the filtered IP strings of the groups whose
sync call succeeded; `removeDuplicateIPs` keeps the first occurrence of each string, so
its result has no repetition, the same elements as its input and is a sub-list of it;
`1.1.1.1, 1.1.1.1, 2.2.2.2` becomes `1.1.1.1, 2.2.2.2`. -/
theorem C10_added_ips_deduplicated :
    (∀ (σ : Type) (config : SyncConfig) (c : Clients σ) (startTime endTime : Nat) (w : σ)
        (source : List DCDNSourceIPInfo),
        (c.GetL2IPList w).1 = .ok source →
        (Scheduler.executeSyncTask config c startTime endTime w).task.AddedIPs
          = Scheduler.removeDuplicateIPs
              (addedBySucceeded (Scheduler.filterIPv4Addresses source)
                (syncOutcomes c (Scheduler.filterIPv4Addresses source) config.AddressGroups
                  (c.GetL2IPList w).2)))
    ∧ (∀ ips : List String,
        Scheduler.removeDuplicateIPs ips = keepFirst ips
        ∧ (Scheduler.removeDuplicateIPs ips).Nodup
        ∧ (∀ x, x ∈ Scheduler.removeDuplicateIPs ips ↔ x ∈ ips)
        ∧ List.Sublist (Scheduler.removeDuplicateIPs ips) ips)
    ∧ Scheduler.removeDuplicateIPs ["1.1.1.1", "1.1.1.1", "2.2.2.2"] = ["1.1.1.1", "2.2.2.2"] := by
  refine ⟨?_, ?_, by decide⟩
  · intro σ config c startTime endTime w source h
    exact (executeSyncTask_ok config c startTime endTime w source h).2.2.2.1
  · intro ips
    rw [removeDuplicateIPs_eq_keepFirst]
    exact ⟨rfl, keepFirst_nodup ips, fun x => mem_keepFirst x ips, keepFirst_sublist ips⟩

/-- The partial-failure scenario: only the second group succeeds, and `addedIPs` holds
that group's addresses only. -/
theorem C10_added_ips_deduplicated_witness :
    (Scheduler.executeSyncTask ⟨scenarioGroups "ipv4" "ipv4"⟩
        (fixedClients (.ok scenarioSource) ["v4-all"]) 0 1 ()).task.AddedIPs
      = ["203.0.113.5"] := by
  rw [C10_added_ips_deduplicated.1 Unit ⟨scenarioGroups "ipv4" "ipv4"⟩
    (fixedClients (.ok scenarioSource) ["v4-all"]) 0 1 () scenarioSource rfl]
  decide

/-- C11: `SyncAddressBook` is create-or-fully-replace.  Against any remote service, with
its calls recorded: when the lookup by name fails, or no configured group has the name,
it returns a failure and has issued the listing request only; when the lookup returns
absent it issues exactly one create request, carrying the name, the description of the
configured group of that name and the complete normalised list, and no replace request;
when the lookup returns a book it issues exactly one replace request, carrying the
identifier of that book and the complete normalised list, and no create request. -/
theorem C11_create_or_replace (ρ : Type) (sync : SyncConfig) (fw : CloudFW ρ)
    (groupName : String) (sourceIPs : List DCDNSourceIPInfo) (r : ρ) (log : List ApiCall) :
    (∀ err, (FirewallClient.GetAddressBookByName fw groupName r).1 = .error err →
        (FirewallClient.SyncAddressBook sync (recording fw) groupName sourceIPs (r, log)).1
            = some ("获取地址薄信息失败: " ++ err)
        ∧ (FirewallClient.SyncAddressBook sync (recording fw) groupName sourceIPs (r, log)).2.2
            = log ++ [ApiCall.describe
                { PageSize := "50", CurrentPage := "1", Lang := "zh", GroupType := "ip" }])
    ∧ (∀ found, (FirewallClient.GetAddressBookByName fw groupName r).1 = .ok found →
        (∀ g ∈ sync.AddressGroups, g.GroupName ≠ groupName) →
        (FirewallClient.SyncAddressBook sync (recording fw) groupName sourceIPs (r, log)).1
            = some ("未找到地址薄 " ++ groupName ++ " 的配置信息")
        ∧ (FirewallClient.SyncAddressBook sync (recording fw) groupName sourceIPs (r, log)).2.2
            = log ++ [ApiCall.describe
                { PageSize := "50", CurrentPage := "1", Lang := "zh", GroupType := "ip" }])
    ∧ (∀ g, (FirewallClient.GetAddressBookByName fw groupName r).1 = .ok none →
        findGroup groupName sync.AddressGroups = some g →
        (FirewallClient.SyncAddressBook sync (recording fw) groupName sourceIPs (r, log)).2.2
            = log ++ [ApiCall.describe
                { PageSize := "50", CurrentPage := "1", Lang := "zh", GroupType := "ip" },
              ApiCall.add
                { Description := g.Description, GroupName := groupName,
                  AddressList := String.intercalate "," (syncNewIPs sourceIPs),
                  AutoAddTagEcs := "false", TagRelation := "and", GroupType := "ip",
                  Lang := "zh" }])
    ∧ (∀ book g, (FirewallClient.GetAddressBookByName fw groupName r).1 = .ok (some book) →
        findGroup groupName sync.AddressGroups = some g →
        (FirewallClient.SyncAddressBook sync (recording fw) groupName sourceIPs (r, log)).2.2
            = log ++ [ApiCall.describe
                { PageSize := "50", CurrentPage := "1", Lang := "zh", GroupType := "ip" },
              ApiCall.modify
                { GroupUuid := book.GroupId, GroupName := groupName,
                  Description := g.Description,
                  AddressList := String.intercalate "," (syncNewIPs sourceIPs) }]) := by
  have hrec := GetAddressBookByName_recording fw groupName r log
  rcases hl : FirewallClient.GetAddressBookByName fw groupName r with ⟨res, r1⟩
  rw [hl] at hrec
  simp only at hrec
  refine ⟨?_, ?_, ?_, ?_⟩
  · intro err he
    simp only at he
    subst he
    unfold FirewallClient.SyncAddressBook
    rw [hrec]
    exact ⟨rfl, rfl⟩
  · intro found he hnone
    simp only at he
    subst he
    have hfg := (findGroup_eq_none_iff groupName sync.AddressGroups).mpr hnone
    unfold FirewallClient.SyncAddressBook
    rw [hrec]
    cases found <;> simp [hfg]
  · intro g he hfg
    simp only at he
    subst he
    unfold FirewallClient.SyncAddressBook
    rw [hrec]
    simp only [hfg, recording]
    cases (fw.AddAddressBook _ r1).1 <;> simp
  · intro book g he hfg
    simp only at he
    subst he
    unfold FirewallClient.SyncAddressBook
    rw [hrec]
    simp only [hfg, recording]
    cases (fw.ModifyAddressBook _ r1).1 <;> simp

/-- The create and the replace of the group `v4-all` of the scenario: against a remote
service without books one create request with the two normalised addresses, against a
service that lists the book under the identifier `uuid-1` one replace request. -/
theorem C11_create_or_replace_witness :
    (FirewallClient.SyncAddressBook ⟨scenarioGroups "ipv4" "both"⟩ (recording emptyRemote)
        "v4-all" [sourceRecord "203.0.113.5", sourceRecord "8.8.4.4"] ((), [])).2.2
      = [] ++ [ApiCall.describe
            { PageSize := "50", CurrentPage := "1", Lang := "zh", GroupType := "ip" },
          ApiCall.add
            { Description := (scenarioAll "ipv4").Description, GroupName := "v4-all",
              AddressList := String.intercalate ","
                (syncNewIPs [sourceRecord "203.0.113.5", sourceRecord "8.8.4.4"]),
              AutoAddTagEcs := "false", TagRelation := "and", GroupType := "ip",
              Lang := "zh" }]
    ∧ (FirewallClient.SyncAddressBook ⟨scenarioGroups "ipv4" "both"⟩
        (recording (singleBookRemote "v4-all" "uuid-1"))
        "v4-all" [sourceRecord "203.0.113.5", sourceRecord "8.8.4.4"] ((), [])).2.2
      = [] ++ [ApiCall.describe
            { PageSize := "50", CurrentPage := "1", Lang := "zh", GroupType := "ip" },
          ApiCall.modify
            { GroupUuid := "uuid-1", GroupName := "v4-all",
              Description := (scenarioAll "ipv4").Description,
              AddressList := String.intercalate ","
                (syncNewIPs [sourceRecord "203.0.113.5", sourceRecord "8.8.4.4"]) }]
    ∧ String.intercalate "," (syncNewIPs [sourceRecord "203.0.113.5", sourceRecord "8.8.4.4"])
      = "203.0.113.5,8.8.4.4" :=
  ⟨(C11_create_or_replace Unit ⟨scenarioGroups "ipv4" "both"⟩ emptyRemote "v4-all"
      [sourceRecord "203.0.113.5", sourceRecord "8.8.4.4"] () []).2.2.1
      (scenarioAll "ipv4") rfl rfl,
   (C11_create_or_replace Unit ⟨scenarioGroups "ipv4" "both"⟩
      (singleBookRemote "v4-all" "uuid-1") "v4-all"
      [sourceRecord "203.0.113.5", sourceRecord "8.8.4.4"] () []).2.2.2
      ⟨"v4-all", "uuid-1", "", []⟩ (scenarioAll "ipv4") rfl rfl,
   by decide⟩

/-- C12: over the remote model in which a create request adds a book holding the given
list, a replace request overwrites the list of the book with the given identifier and
the listing reports the existing books, a second pass with the same configuration and
the same fetch result leaves the store as the first pass left it, so each configured
group has the same address-book content after the second pass as after the first. -/
theorem C12_second_pass_changes_nothing (config : SyncConfig)
    (fetched : Except String (List DCDNSourceIPInfo)) (start1 end1 start2 end2 : Nat)
    (books : List Book) :
    (Scheduler.executeSyncTask config (memoryClients config fetched) start2 end2
        (Scheduler.executeSyncTask config (memoryClients config fetched) start1 end1
          books).world).world
      = (Scheduler.executeSyncTask config (memoryClients config fetched) start1 end1
          books).world
    ∧ ∀ g ∈ config.AddressGroups,
        bookContent g.GroupName
            (Scheduler.executeSyncTask config (memoryClients config fetched) start2 end2
              (Scheduler.executeSyncTask config (memoryClients config fetched) start1 end1
                books).world).world
          = bookContent g.GroupName
              (Scheduler.executeSyncTask config (memoryClients config fetched) start1 end1
                books).world := by
  have h : (Scheduler.executeSyncTask config (memoryClients config fetched) start2 end2
        (Scheduler.executeSyncTask config (memoryClients config fetched) start1 end1
          books).world).world
      = (Scheduler.executeSyncTask config (memoryClients config fetched) start1 end1
          books).world := by
    rw [executeSyncTask_memory_world, executeSyncTask_memory_world]
    cases fetched with
    | error e => rfl
    | ok sourceIPs => exact runWrites_idem _ _
  exact ⟨h, fun g _ => by rw [h]⟩

/-- The scenario run twice from an empty store: both passes leave the two books of the
scenario, `v4-all` with both public addresses. -/
theorem C12_second_pass_changes_nothing_witness :
    (Scheduler.executeSyncTask ⟨scenarioGroups "ipv4" "both"⟩
        (memoryClients ⟨scenarioGroups "ipv4" "both"⟩ (.ok scenarioSource)) 0 1 []).world
      = [⟨"v4-all", (scenarioAll "ipv4").Description, "203.0.113.5,8.8.4.4"⟩,
         ⟨"v4-strict", (scenarioStrict "both").Description, "203.0.113.5"⟩]
    ∧ bookContent "v4-all"
        (Scheduler.executeSyncTask ⟨scenarioGroups "ipv4" "both"⟩
          (memoryClients ⟨scenarioGroups "ipv4" "both"⟩ (.ok scenarioSource)) 2 3
          (Scheduler.executeSyncTask ⟨scenarioGroups "ipv4" "both"⟩
            (memoryClients ⟨scenarioGroups "ipv4" "both"⟩ (.ok scenarioSource)) 0 1
            []).world).world
      = bookContent "v4-all"
        (Scheduler.executeSyncTask ⟨scenarioGroups "ipv4" "both"⟩
          (memoryClients ⟨scenarioGroups "ipv4" "both"⟩ (.ok scenarioSource)) 0 1
          []).world :=
  ⟨by decide,
   (C12_second_pass_changes_nothing ⟨scenarioGroups "ipv4" "both"⟩ (.ok scenarioSource)
      0 1 2 3 []).2 (scenarioAll "ipv4") (by decide)⟩

/-- C13: the lookup by name requests the first page of fifty books and no other.  On a
remote service that lists fifty-one books, the last one named `target`, it returns
absent for `target`, although the listing holds a book of exactly that name, which the
second page reports.  A book it does return has exactly the requested name. -/
theorem C13_lookup_reads_first_page_only :
    (FirewallClient.GetAddressBookByName (pagedRemote fiftyOneBooks) "target" ()).1 = .ok none
    ∧ findAcl "target" (fiftyOneBooks.map some) = some (listedBook "target" "uuid-target")
    ∧ ((pagedRemote fiftyOneBooks).DescribeAddressBook
          { PageSize := "50", CurrentPage := "2", Lang := "zh", GroupType := "ip" } ()).1
        = .ok (some { Acls := [some (listedBook "target" "uuid-target")] })
    ∧ (∀ (ρ : Type) (fw : CloudFW ρ) (groupName : String) (r : ρ) (book : FirewallAddressBook),
        (FirewallClient.GetAddressBookByName fw groupName r).1 = .ok (some book) →
        book.GroupName = groupName) :=
  ⟨rfl, by decide, rfl, fun _ fw groupName r book h =>
    GetAddressBookByName_exact_name fw groupName r book h⟩

/-- C14: a second call of `Stop` panics.  The first call on a new scheduler returns and
leaves the context cancelled and the stop channel closed; every call on a scheduler
that a call of `Stop` has left panics with `close of closed channel`. -/
theorem C14_second_stop_panics :
    Scheduler.Stop NewScheduler
        = .ok { ctxDone := true, cron := none, stopChClosed := true }
    ∧ Scheduler.Stop { ctxDone := true, cron := none, stopChClosed := true }
        = .error "close of closed channel"
    ∧ (∀ s s1 : SchedulerState, Scheduler.Stop s = .ok s1 →
        Scheduler.Stop s1 = .error "close of closed channel") := by
  refine ⟨rfl, rfl, ?_⟩
  intro s s1 h
  unfold Scheduler.Stop at h ⊢
  cases hc : s.cron <;> cases hs : s.stopChClosed <;> simp [hc, hs] at h <;> subst h <;> simp

/-- C15: a pass can start after `Stop` has returned.  A tick arrives while a pass runs,
`Stop` is called and returns, the pass returns, and the `select`, for which the tick,
the cancelled context and the closed stop channel are all ready, takes the tick: the
loop is inside `executeSyncTask` again.  The same holds when `Stop` is called while a
tick is pending at the `select`.  When the `select` takes the context instead, the loop
returns. -/
theorem C15_pass_starts_after_stop :
    loopRun loopStart [.tick, .selectTick, .tick, .stop, .passReturns, .selectTick]
        = some { sched := { ctxDone := true, cron := none, stopChClosed := true },
                 tickPending := false, phase := .inPass }
    ∧ passStartsAfterStop [.tick, .selectTick, .tick, .stop, .passReturns, .selectTick] = true
    ∧ loopRun loopStart [.tick, .stop, .selectTick]
        = some { sched := { ctxDone := true, cron := none, stopChClosed := true },
                 tickPending := false, phase := .inPass }
    ∧ passStartsAfterStop [.tick, .stop, .selectTick] = true
    ∧ loopRun loopStart [.tick, .selectTick, .tick, .stop, .passReturns, .selectCtxDone]
        = some { sched := { ctxDone := true, cron := none, stopChClosed := true },
                 tickPending := true, phase := .returned } := by
  decide

/-- C17, as stated, fails: the loader accepts a configuration with two address groups of
the name `g`, and the lookup by name made while the second group is synced returns the
first group, whose description differs. -/
theorem C17_duplicate_names_accepted :
    validateConfig duplicateNameConfig = none
    ∧ LoadConfig (.ok duplicateNameConfig) = .ok duplicateNameConfig
    ∧ duplicateNameConfig.Sync.AddressGroups.map (fun g => g.GroupName) = ["g", "g"]
    ∧ findGroup "g" duplicateNameConfig.Sync.AddressGroups
        = some ⟨"g", "first", "ipv4", [], []⟩
    ∧ duplicateNameConfig.Sync.AddressGroups[1]? = some ⟨"g", "second", "ipv4", ["8.*"], []⟩ :=
  ⟨rfl, rfl, rfl, rfl, rfl⟩

/-- C17, amended: the validation of the loader accepts a configuration exactly when its
list of address groups is not empty, whatever their names, so a loaded configuration has
at least one group.  The lookup by name inside `SyncAddressBook` designates the first
configured group of the name; it is the group being synced whenever the names of the
configured groups are pairwise distinct. -/
theorem C17_lookup_designates_first_of_name :
    (∀ config : Config, validateConfig config = none ↔ config.Sync.AddressGroups ≠ [])
    ∧ (∀ (unmarshalled : Except String Config) (config : Config),
        LoadConfig unmarshalled = .ok config → config.Sync.AddressGroups ≠ [])
    ∧ (∀ (groups : List AddressGroup) (g : AddressGroup), g ∈ groups →
        ∃ g0 pre post, findGroup g.GroupName groups = some g0
          ∧ groups = pre ++ g0 :: post ∧ g0.GroupName = g.GroupName
          ∧ ∀ x ∈ pre, x.GroupName ≠ g.GroupName)
    ∧ (∀ groups : List AddressGroup, (groups.map (fun g => g.GroupName)).Nodup →
        ∀ g ∈ groups, findGroup g.GroupName groups = some g) := by
  refine ⟨validateConfig_eq_none_iff, ?_, ?_, findGroup_of_nodup⟩
  · intro unmarshalled config h
    unfold LoadConfig at h
    cases unmarshalled with
    | error e => simp at h
    | ok c0 =>
      simp only at h
      cases hv : validateConfig (setDefaults c0) with
      | some err => simp [hv] at h
      | none =>
        simp only [hv, Except.ok.injEq] at h
        rw [← h]
        exact (validateConfig_eq_none_iff _).mp hv
  · intro groups g hg
    obtain ⟨g0, h0⟩ := findGroup_isSome_of_mem groups g hg
    obtain ⟨pre, post, he, hn, hpre⟩ := findGroup_eq_some g.GroupName groups g0 h0
    exact ⟨g0, pre, post, h0, he, hn, hpre⟩

/-- The scenario, whose two group names differ: the lookup by the name of the second
group returns the second group. -/
theorem C17_lookup_designates_first_of_name_witness :
    findGroup "v4-strict" (scenarioGroups "ipv4" "ipv4") = some (scenarioStrict "ipv4") :=
  C17_lookup_designates_first_of_name.2.2.2 (scenarioGroups "ipv4" "ipv4") (by decide)
    (scenarioStrict "ipv4") (by decide)

/-- C18: an interval that parses to a duration that is not positive makes the set-up of
the interval mode panic in the constructor of the ticker: no error is returned.  The
intervals `0s` and `-1h` parse to zero and to minus one hour, and `Start` on a loaded
configuration with the interval `0s` and no cron expression panics. -/
theorem C18_nonpositive_interval_panics :
    (∀ (ParseDuration : String → Except String Int) (interval : String) (d : Int),
        ParseDuration interval = .ok d → d ≤ 0 →
        Scheduler.startWithInterval ParseDuration interval
          = .panicked "non-positive interval for NewTicker")
    ∧ Time.ParseDuration "0s" = .ok 0
    ∧ Scheduler.startWithInterval Time.ParseDuration "0s"
        = .panicked "non-positive interval for NewTicker"
    ∧ Time.ParseDuration "-1h" = .ok (-3600000000000)
    ∧ Scheduler.startWithInterval Time.ParseDuration "-1h"
        = .panicked "non-positive interval for NewTicker"
    ∧ LoadConfig (.ok zeroIntervalConfig) = .ok zeroIntervalConfig
    ∧ (Scheduler.Start Time.ParseDuration (fun _ => none) zeroIntervalConfig
          (fixedClients (.ok scenarioSource) []) 0 1 ()).outcome
        = .panicked "non-positive interval for NewTicker" := by
  refine ⟨?_, rfl, by decide, rfl, by decide, rfl, by decide⟩
  intro PD interval d h hd
  simp [Scheduler.startWithInterval, h, hd]

end DcdnSync
